import Mathlib

/-!
Verification of the TalentFlow assessment engine against its specification.

The definitions below are a shallow embedding of the TypeScript sources:
  * `src/utils/storage.ts` (document model, repository `upsertAssessment`),
  * `src/store/useAssessmentsStore.ts` (builder mutation engine),
  * `src/pages/AssessmentSubmit.tsx` (visibility evaluator, zod submission
    schema, hidden-question reset pass).

Modelling conventions:
  * JS `undefined` is `Option.none`; JS `null` is the explicit `FormValue.null`
    (for form values) or folded into `Option.none` where the source never
    distinguishes the two.
  * JS numbers are modelled as `JsNum` (NaN, the two infinities, and finite
    values restricted to integers).  The decimal-fraction, exponent and radix
    forms of the JS numeric grammar are outside the model; the modelled
    fragment (integers, signs, whitespace, the Infinity spellings, and
    arbitrary malformed strings) is faithful to `Number(...)`.
  * `nanoid()` calls are modelled by an explicit id supply `gen : Nat → String`
    passed to the operations that generate identifiers.
  * zod semantics: structural (type-level) failures of the compiled object
    schema abort parsing, so the `superRefine` stage only runs when every
    field conforms to its compiled union; check-level failures (`min`,
    `email`) are recoverable ("dirty") and are reported alongside the
    refinement issues.  Unknown keys are stripped before refinement runs.
-/

namespace TalentFlow

/-! ## Document model (`src/utils/storage.ts`) -/

inductive QuestionType where
  | single_choice
  | multi_choice
  | short_text
  | long_text
  | numeric
  | file_upload
deriving DecidableEq, Repr

inductive AssessmentStatus where
  | draft
  | published
  | archived
deriving DecidableEq, Repr

inductive Difficulty where
  | easy
  | medium
  | hard
deriving DecidableEq, Repr

structure QuestionChoice where
  id : String
  label : String
  value : String
deriving DecidableEq, Repr

structure QuestionValidationRules where
  minLength : Option Int := none
  maxLength : Option Int := none
  minValue : Option Int := none
  maxValue : Option Int := none
  allowedFileTypes : Option (List String) := none
  maxFileSizeMb : Option Int := none
deriving DecidableEq, Repr

/-- The `equals` comparand of a conditional-logic descriptor:
`string | string[]` in the source. -/
inductive EqualsValue where
  | single (s : String)
  | many (xs : List String)
deriving DecidableEq, Repr

structure QuestionConditionalLogic where
  questionId : String
  equals : EqualsValue
deriving DecidableEq, Repr

structure AssessmentQuestion where
  id : String
  sectionId : String
  order : Int
  type : QuestionType
  label : String
  description : Option String := none
  helperText : Option String := none
  required : Bool
  validation : QuestionValidationRules
  conditionalLogic : Option QuestionConditionalLogic := none
  choices : Option (List QuestionChoice) := none
deriving DecidableEq, Repr

structure AssessmentSection where
  id : String
  assessmentId : String
  order : Int
  title : String
  description : Option String := none
  timeLimitMinutes : Option Int := none
  questions : List AssessmentQuestion
deriving DecidableEq, Repr

structure AssessmentRecord where
  id : String
  jobId : String
  title : String
  summary : String
  role : String
  difficulty : Difficulty
  durationMinutes : Int
  status : AssessmentStatus
  tags : List String
  createdAt : String
  updatedAt : String
  sections : List AssessmentSection
deriving DecidableEq, Repr

/-! ## Form values (`SubmissionFormValues` in `src/pages/AssessmentSubmit.tsx`) -/

/-- A JS number: NaN, an infinity, or a finite value (modelled as an integer). -/
inductive JsNum where
  | nan
  | posInf
  | negInf
  | fin (n : Int)
deriving DecidableEq, Repr

/-- A `File` object as far as the validator inspects it: `name`, `type`
(called `mediaType` here) and `size` in bytes. -/
structure JsFile where
  name : String
  mediaType : String
  size : Nat
deriving DecidableEq, Repr

/-- One value of the submission form record:
`string | string[] | number | File | null` (`undefined` is `Option.none`
around this type). -/
inductive FormValue where
  | str (s : String)
  | list (xs : List String)
  | num (n : JsNum)
  | file (f : JsFile)
  | null
deriving DecidableEq, Repr

/-- The submission form record, keyed by field name; `none` is an absent or
`undefined` key. -/
def FormValues := String → Option FormValue

/-! ## Visibility evaluator (`isQuestionVisible`, AssessmentSubmit.tsx 53-66) -/

def isQuestionVisible (question : AssessmentQuestion) (values : FormValues) : Bool :=
  match question.conditionalLogic with
  | none => true
  | some cl =>
    match values cl.questionId with
    | none => false
    | some FormValue.null => false
    | some targetValue =>
      match cl.equals with
      | EqualsValue.many eqs =>
        match targetValue with
        | FormValue.list xs => xs.any (fun v => eqs.contains v)
        | FormValue.str s => eqs.contains s
        | _ => false
      | EqualsValue.single e =>
        match targetValue with
        | FormValue.list xs => xs.contains e
        | FormValue.str s => s == e
        | _ => false

/-- `questionDefaultValue` (AssessmentSubmit.tsx 40-51).  Note the source
returns `''` (not `null`) for `numeric` questions. -/
def questionDefaultValue (question : AssessmentQuestion) : FormValue :=
  match question.type with
  | QuestionType.multi_choice => FormValue.list []
  | QuestionType.numeric => FormValue.str ""
  | QuestionType.file_upload => FormValue.null
  | _ => FormValue.str ""

/-! ## Helpers of the submission page (AssessmentSubmit.tsx 68-84) -/

/-- `ensureArray` (lines 68-73); the modelled `FormValue.list` already holds
only strings, so the string filter is the identity on its elements. -/
def ensureArray (value : Option FormValue) : List String :=
  match value with
  | some (FormValue.list xs) => xs
  | _ => []

/-- Whitespace recognised by the modelled JS `trim()` (the common ASCII
whitespace characters; exotic Unicode space code points are outside the
model). -/
def isJsSpace (c : Char) : Bool :=
  c == ' ' || c == Char.ofNat 9 || c == Char.ofNat 10 || c == Char.ofNat 13
    || c == Char.ofNat 11 || c == Char.ofNat 12

/-- JS `String.prototype.trim()`: strip leading and trailing whitespace. -/
def jsTrim (s : String) : String :=
  String.mk (((s.toList.dropWhile isJsSpace).reverse.dropWhile isJsSpace).reverse)

/-- `trimString` (line 75). -/
def trimString (value : Option FormValue) : String :=
  match value with
  | some (FormValue.str s) => jsTrim s
  | _ => ""

/-- `isChoiceValid` (lines 77-78). -/
def isChoiceValid (choices : Option (List QuestionChoice)) (value : String) : Bool :=
  match choices with
  | none => true
  | some cs => cs.any (fun choice => choice.value == value)

/-- `areChoicesValid` (lines 80-84); the source collects the allowed values in
a `Set`, which is pure membership testing. -/
def areChoicesValid (choices : Option (List QuestionChoice)) (values : List String) : Bool :=
  match choices with
  | none => true
  | some cs => values.all (fun value => cs.any (fun choice => choice.value == value))

/-! ## JS number coercion (`Number(...)` as used by the numeric validator) -/

/-- JS `<` on numbers: any comparison involving NaN is false. -/
def jsNumLt : JsNum → JsNum → Bool
  | JsNum.nan, _ => false
  | _, JsNum.nan => false
  | JsNum.negInf, JsNum.negInf => false
  | JsNum.negInf, _ => true
  | _, JsNum.negInf => false
  | JsNum.posInf, _ => false
  | JsNum.fin _, JsNum.posInf => true
  | JsNum.fin a, JsNum.fin b => decide (a < b)

/-- Digit-string parser: `some n` when the character list is a non-empty
run of decimal digits. -/
def parseDigits (cs : List Char) : Option Nat :=
  if cs ≠ [] ∧ cs.all (fun c => c.isDigit) then
    some (cs.foldl (fun n c => n * 10 + (c.toNat - 48)) 0)
  else none

/-- JS `Number(string)` restricted to the modelled grammar: leading and
trailing whitespace is trimmed; the empty string is `0`; the `Infinity`
spellings give infinities; signed decimal-digit strings give their integer;
everything else is NaN. -/
def parseJsNumber (s : String) : JsNum :=
  let t := jsTrim s
  if t = "" then JsNum.fin 0
  else if t = "Infinity" ∨ t = "+Infinity" then JsNum.posInf
  else if t = "-Infinity" then JsNum.negInf
  else
    match t.toList with
    | '+' :: rest =>
      (match parseDigits rest with
       | some n => JsNum.fin (n : Int)
       | none => JsNum.nan)
    | '-' :: rest =>
      (match parseDigits rest with
       | some n => JsNum.fin (-(n : Int))
       | none => JsNum.nan)
    | cs =>
      (match parseDigits cs with
       | some n => JsNum.fin (n : Int)
       | none => JsNum.nan)

/-- `typeof rawValue === 'number' ? rawValue : Number(rawValue)`
(AssessmentSubmit.tsx 179).  `Number` of an array goes through its string
form (elements joined with commas); `Number` of a `File` is NaN; `null` and
`undefined` never reach this coercion (the blank guard fires first). -/
def toJsNumber (rawValue : Option FormValue) : JsNum :=
  match rawValue with
  | some (FormValue.num n) => n
  | some (FormValue.str s) => parseJsNumber s
  | some (FormValue.list xs) => parseJsNumber (String.intercalate "," xs)
  | some (FormValue.file _) => JsNum.nan
  | some FormValue.null => JsNum.fin 0
  | none => JsNum.nan

/-! ## The compiled submission validator (`buildSubmissionSchema`, 92-258) -/

/-- A field-path-tagged validation issue (`ctx.addIssue` / zod issue). -/
structure Issue where
  path : String
  message : String
deriving DecidableEq, Repr

/-- The `superRefine` contribution of one question (AssessmentSubmit.tsx
130-255), given the (already stripped) raw value at its key.  Issues keep
the source's messages. -/
def questionIssues (question : AssessmentQuestion) (rawValue : Option FormValue) : List Issue :=
  match question.type with
  | QuestionType.single_choice =>
    let stringValue := match rawValue with
      | some (FormValue.str s) => s
      | _ => ""
    (if question.required && stringValue == "" then
       [⟨question.id, "Select an option"⟩] else []) ++
    (if stringValue != "" && !isChoiceValid question.choices stringValue then
       [⟨question.id, "Choose a valid option"⟩] else [])
  | QuestionType.multi_choice =>
    let valuesArray := ensureArray rawValue
    (if question.required && valuesArray.isEmpty then
       [⟨question.id, "Pick at least one option"⟩] else []) ++
    (if !areChoicesValid question.choices valuesArray then
       [⟨question.id, "Choose valid options"⟩] else [])
  | QuestionType.numeric =>
    if rawValue == some (FormValue.str "") || rawValue == none
        || rawValue == some FormValue.null then
      (if question.required then [⟨question.id, "Enter a number"⟩] else [])
    else
      let number := toJsNumber rawValue
      if number == JsNum.nan then [⟨question.id, "Enter a valid number"⟩]
      else
        (match question.validation.minValue with
         | some minValue =>
           if jsNumLt number (JsNum.fin minValue) then
             [⟨question.id, s!"Value must be {minValue} or greater"⟩] else []
         | none => []) ++
        (match question.validation.maxValue with
         | some maxValue =>
           if jsNumLt (JsNum.fin maxValue) number then
             [⟨question.id, s!"Value must be {maxValue} or less"⟩] else []
         | none => [])
  | QuestionType.file_upload =>
    match rawValue with
    | some (FormValue.file f) =>
      (match question.validation.allowedFileTypes with
       | some allowed =>
         if !allowed.contains f.mediaType then
           [⟨question.id, "Select one of the accepted file types"⟩] else []
       | none => []) ++
      (match question.validation.maxFileSizeMb with
       | some maxMb =>
         if (f.size : Int) > maxMb * 1048576 then
           [⟨question.id, s!"File must be under {maxMb} MB"⟩] else []
       | none => [])
    | _ =>
      if question.required then [⟨question.id, "Upload is required for this step"⟩] else []
  | _ =>
    let textValue := trimString rawValue
    (if question.required && textValue == "" then
       [⟨question.id, "This field is required"⟩] else []) ++
    (match question.validation.maxLength with
     | some maxLength =>
       if (textValue.length : Int) > maxLength then
         [⟨question.id, s!"Keep your answer under {maxLength} characters"⟩] else []
     | none => [])

/-- The compiled zod union for a question's field (lines 98-120). -/
inductive FieldSchema where
  | nameField
  | emailField
  | singleChoiceField
  | multiChoiceField
  | numericField
  | fileField
  | textField
deriving DecidableEq, Repr

def questionFieldSchema (t : QuestionType) : FieldSchema :=
  match t with
  | QuestionType.single_choice => FieldSchema.singleChoiceField
  | QuestionType.multi_choice => FieldSchema.multiChoiceField
  | QuestionType.numeric => FieldSchema.numericField
  | QuestionType.file_upload => FieldSchema.fileField
  | _ => FieldSchema.textField

/-- The schema stored under a key of the zod shape.  `shape[question.id] = …`
assignments run in question order, so the last question with a given id wins;
the base `candidateName` / `candidateEmail` entries are overwritten when a
question carries one of those ids. -/
def fieldSchemaFor (questions : List AssessmentQuestion) (key : String) : FieldSchema :=
  match (questions.filter (fun q => q.id == key)).getLast? with
  | some q => questionFieldSchema q.type
  | none => if key == "candidateName" then FieldSchema.nameField else FieldSchema.emailField

/-- Structural (type-level) acceptance of a field value by its compiled
schema; a failure here is a fatal zod issue that aborts parsing.  Note
`z.number()` rejects a raw NaN number fatally (zod's `getParsedType` maps
NaN to its own parsed type), so NaN does not conform to the numeric
field's union; the infinities do. -/
def fieldTypeOk (schema : FieldSchema) (value : Option FormValue) : Bool :=
  match schema, value with
  | FieldSchema.nameField, some (FormValue.str _) => true
  | FieldSchema.nameField, _ => false
  | FieldSchema.emailField, none => true
  | FieldSchema.emailField, some (FormValue.str _) => true
  | FieldSchema.emailField, _ => false
  | FieldSchema.singleChoiceField, none => true
  | FieldSchema.singleChoiceField, some (FormValue.str _) => true
  | FieldSchema.singleChoiceField, _ => false
  | FieldSchema.multiChoiceField, none => true
  | FieldSchema.multiChoiceField, some (FormValue.list _) => true
  | FieldSchema.multiChoiceField, _ => false
  | FieldSchema.numericField, none => true
  | FieldSchema.numericField, some (FormValue.num JsNum.nan) => false
  | FieldSchema.numericField, some (FormValue.num _) => true
  | FieldSchema.numericField, some (FormValue.str _) => true
  | FieldSchema.numericField, _ => false
  | FieldSchema.fileField, none => true
  | FieldSchema.fileField, some (FormValue.file _) => true
  | FieldSchema.fileField, some FormValue.null => true
  | FieldSchema.fileField, _ => false
  | FieldSchema.textField, none => true
  | FieldSchema.textField, some (FormValue.str _) => true
  | FieldSchema.textField, _ => false

/-- Model of zod's email format check (`z.string().email()`): local part of
letters, digits, `_`, apostrophe, `+`, `-`, `.`, not starting with a dot, no
double dot, last local character not a dot or apostrophe; then `@`; then one
or more `-`-allowing labels and an alphabetic top-level domain of length at
least two. -/
def isEmailLocalChar (c : Char) : Bool :=
  c.isAlpha || c.isDigit || c == '_' || c == Char.ofNat 39 || c == '+' || c == '-' || c == '.'

def isEmailLocalEndChar (c : Char) : Bool :=
  c.isAlpha || c.isDigit || c == '_' || c == '+' || c == '-'

def noDoubleDot : List Char → Bool
  | '.' :: '.' :: _ => false
  | _ :: rest => noDoubleDot rest
  | [] => true

def isDomainLabel (s : String) : Bool :=
  match s.toList with
  | [] => false
  | c :: rest => (c.isAlpha || c.isDigit) && rest.all (fun d => d.isAlpha || d.isDigit || d == '-')

def isEmailLike (s : String) : Bool :=
  noDoubleDot s.toList &&
  (match s.splitOn "@" with
   | [localPart, domain] =>
     (match localPart.toList.getLast? with
      | some c => isEmailLocalEndChar c
      | none => false) &&
     localPart.toList.all isEmailLocalChar &&
     !(localPart.startsWith ".") &&
     (match domain.splitOn "." with
      | [] => false
      | parts =>
        parts.length ≥ 2 &&
        (parts.dropLast.all isDomainLabel) &&
        (match parts.getLast? with
         | some tld => tld.length ≥ 2 && tld.toList.all (fun c => c.isAlpha)
         | none => false))
   | _ => false)

/-- Check-level ("dirty") issues of a base field: the `min(1)` check on
`candidateName` and the email-format check on `candidateEmail`.  Note the
`candidateName` check does not trim. -/
def fieldCheckIssues (schema : FieldSchema) (key : String) (value : Option FormValue) : List Issue :=
  match schema, value with
  | FieldSchema.nameField, some (FormValue.str s) =>
    if s.length < 1 then [⟨key, "Please share your name"⟩] else []
  | FieldSchema.emailField, some (FormValue.str s) =>
    if s ≠ "" ∧ ¬ isEmailLike s then [⟨key, "Enter a valid email address"⟩] else []
  | _, _ => []

/-- First-occurrence deduplication (JS object key order), with an
accumulator of already-seen keys. -/
def dedupKeysSeen (seen : List String) : List String → List String
  | [] => []
  | k :: rest =>
    if seen.contains k then dedupKeysSeen seen rest
    else k :: dedupKeysSeen (k :: seen) rest

/-- The keys of the compiled zod shape, in insertion order (duplicate
question ids collapse to their first position, and a question id equal to a
base key re-uses the base key's position). -/
def shapeKeys (questions : List AssessmentQuestion) : List String :=
  "candidateName" :: "candidateEmail" ::
    dedupKeysSeen [] ((questions.map (fun q => q.id)).filter
      (fun i => i != "candidateName" && i != "candidateEmail"))

/-- Shape-stage issues of one key: a single fatal issue when the value fails
the compiled union, otherwise the key's check-level issues.  (The exact
wording of zod's structural messages is not modelled; no theorem below
inspects it.) -/
def shapeFieldIssues (questions : List AssessmentQuestion) (values : FormValues)
    (key : String) : List Issue :=
  let schema := fieldSchemaFor questions key
  if fieldTypeOk schema (values key) then fieldCheckIssues schema key (values key)
  else [⟨key, "Invalid input"⟩]

def shapeIssues (questions : List AssessmentQuestion) (values : FormValues) : List Issue :=
  (shapeKeys questions).flatMap (shapeFieldIssues questions values)

/-- True when some field fails its compiled union, which makes the zod object
parse abort and skips the `superRefine` stage. -/
def shapeAborted (questions : List AssessmentQuestion) (values : FormValues) : Bool :=
  (shapeKeys questions).any (fun key => !fieldTypeOk (fieldSchemaFor questions key) (values key))

/-- zod strips keys not present in the shape before handing the record to
`superRefine`. -/
def stripValues (questions : List AssessmentQuestion) (values : FormValues) : FormValues :=
  fun key => if (shapeKeys questions).contains key then values key else none

/-- All `superRefine` issues: the loop over `questions` skips questions that
are invisible for the (stripped) record (line 125). -/
def refineIssues (questions : List AssessmentQuestion) (values : FormValues) : List Issue :=
  questions.flatMap (fun question =>
    if isQuestionVisible question values then questionIssues question (values question.id)
    else [])

/-- The full compiled validator: shape-stage issues, followed by the
refinement issues when no field aborted the parse. -/
def buildSubmissionSchema (questions : List AssessmentQuestion) (values : FormValues) :
    List Issue :=
  shapeIssues questions values ++
    (if shapeAborted questions values then []
     else refineIssues questions (stripValues questions values))

/-! ## Hidden-question reset pass (AssessmentSubmit.tsx 271-277, 335-344) -/

/-- `isEqualValue` (lines 271-277): arrays compare element-wise, everything
else by strict equality; an `undefined` current value never equals a defined
default. -/
def isEqualValue (current : Option FormValue) (expected : FormValue) : Bool :=
  match current, expected with
  | some (FormValue.list xs), FormValue.list ys => xs == ys
  | some v, e => v == e
  | none, _ => false

/-- The effect at lines 335-344: for each question, evaluated against the
single `watchedValues` snapshot, a hidden question whose current value
differs from its default gets `form.setValue(id, default)`.  The snapshot is
`values`; the writes accumulate in the returned record. -/
def resetHiddenValues (questions : List AssessmentQuestion) (values : FormValues) : FormValues :=
  questions.foldl (fun acc question =>
    let expectedDefault := questionDefaultValue question
    let currentValue := values question.id
    let visible := isQuestionVisible question values
    if !visible && !isEqualValue currentValue expectedDefault then
      fun key => if key == question.id then some expectedDefault else acc key
    else acc) values

/-! ## Builder mutation engine (`src/store/useAssessmentsStore.ts`)

The zustand store wraps every operation in `set`, returning the state
unchanged when no assessment is loaded; the embedding operates on the
`AssessmentRecord` directly.  `nanoid()` calls are an explicit supply
`gen : Nat → String` (or a single `freshId`). -/

/-- JS `list.map((x, i) => f(i, x))`, with an explicit start index to ease
induction.  `mapWithIndex f 0` is the direct translation. -/
def mapWithIndex (f : Nat → α → β) : Nat → List α → List β
  | _, [] => []
  | n, x :: xs => f n x :: mapWithIndex f (n + 1) xs

/-- `normalizeSectionOrders` (useAssessmentsStore.ts 57-58). -/
def normalizeSectionOrders (sections : List AssessmentSection) : List AssessmentSection :=
  mapWithIndex (fun index sec => {sec with order := (index : Int)}) 0 sections

/-- `normalizeQuestionOrders` (useAssessmentsStore.ts 60-61). -/
def normalizeQuestionOrders (questions : List AssessmentQuestion) : List AssessmentQuestion :=
  mapWithIndex (fun index question => {question with order := (index : Int)}) 0 questions

def isSlugChar (c : Char) : Bool := c.isLower || c.isDigit

/-- `label.replace(/[^a-z0-9]+/g, '-')` on an already lowercased string: each
maximal run of non-slug characters becomes a single `-`.  The flag tracks
whether the previous character belonged to such a run. -/
def collapseSlugRuns (prevNonSlug : Bool) : List Char → List Char
  | [] => []
  | c :: rest =>
    if isSlugChar c then c :: collapseSlugRuns false rest
    else if prevNonSlug then collapseSlugRuns true rest
    else '-' :: collapseSlugRuns true rest

/-- `createPlaceholderChoice`'s value slug (ASCII lowercasing, as JS
`toLowerCase` on the identifiers appearing in the source). -/
def slugify (label : String) : String :=
  String.mk (collapseSlugRuns false (label.toList.map Char.toLower))

/-- `createPlaceholderChoice` (useAssessmentsStore.ts 63-67) with an explicit
fresh id. -/
def createPlaceholderChoice (freshId : String) (label : String) : QuestionChoice :=
  { id := freshId, label := label, value := slugify label }

/-- `defaultValidationForType` (useAssessmentsStore.ts 69-82). -/
def defaultValidationForType (t : QuestionType) : QuestionValidationRules :=
  match t with
  | QuestionType.short_text => { minLength := some 0, maxLength := some 280 }
  | QuestionType.long_text => { minLength := some 0, maxLength := some 1200 }
  | QuestionType.numeric => { minValue := some 0, maxValue := some 100 }
  | QuestionType.file_upload =>
    { allowedFileTypes := some ["application/pdf", "image/png"], maxFileSizeMb := some 10 }
  | _ => {}

/-- `createDefaultQuestion` (useAssessmentsStore.ts 84-123); `gen 0` is the
question's `nanoid()`, `gen 1`, `gen 2`, … the placeholder choices'. -/
def createDefaultQuestion (gen : Nat → String) (sectionId : String) (order : Int)
    (t : QuestionType) : AssessmentQuestion :=
  let base : AssessmentQuestion := {
    id := gen 0
    sectionId := sectionId
    order := order
    type := t
    label := "Untitled question"
    required := true
    validation := defaultValidationForType t
    choices := none }
  match t with
  | QuestionType.single_choice =>
    {base with
      description := some "Select one option that best fits."
      helperText := some "Provide rationale in later sections if needed."
      choices := some [createPlaceholderChoice (gen 1) "Option A",
                       createPlaceholderChoice (gen 2) "Option B"]}
  | QuestionType.multi_choice =>
    {base with
      description := some "Choose all answers that apply."
      helperText := some "Multiple selections allowed."
      choices := some [createPlaceholderChoice (gen 1) "Option A",
                       createPlaceholderChoice (gen 2) "Option B",
                       createPlaceholderChoice (gen 3) "Option C"]}
  | QuestionType.file_upload =>
    {base with helperText := some "Upload supporting assets as a single file."}
  | _ => base

/-- `Partial<…>` update payloads: a `none` field is an absent key.  (Keys
explicitly set to `undefined` are not modelled; no caller and no claim uses
them.) -/
structure MetadataUpdates where
  title : Option String := none
  summary : Option String := none
  role : Option String := none
  difficulty : Option Difficulty := none
  durationMinutes : Option Int := none
  tags : Option (List String) := none
  status : Option AssessmentStatus := none

structure SectionUpdates where
  title : Option String := none
  description : Option String := none
  timeLimitMinutes : Option (Option Int) := none

structure QuestionUpdates where
  type : Option QuestionType := none
  label : Option String := none
  description : Option String := none
  helperText : Option String := none
  required : Option Bool := none
  validation : Option QuestionValidationRules := none
  conditionalLogic : Option (Option QuestionConditionalLogic) := none
  choices : Option (Option (List QuestionChoice)) := none

structure ValidationUpdates where
  minLength : Option Int := none
  maxLength : Option Int := none
  minValue : Option Int := none
  maxValue : Option Int := none
  allowedFileTypes : Option (List String) := none
  maxFileSizeMb : Option Int := none

structure CreateSectionInput where
  title : Option String := none
  description : Option String := none
  timeLimitMinutes : Option (Option Int) := none

structure CreateQuestionInput where
  type : Option QuestionType := none
  label : Option String := none
  description : Option String := none
  helperText : Option String := none
  required : Option Bool := none
  choices : Option (List QuestionChoice) := none
  validation : ValidationUpdates := {}
  conditionalLogic : Option QuestionConditionalLogic := none

/-- `{...current.validation, ...validation}`. -/
def mergeValidation (current : QuestionValidationRules) (updates : ValidationUpdates) :
    QuestionValidationRules :=
  { minLength := updates.minLength.orElse (fun _ => current.minLength)
    maxLength := updates.maxLength.orElse (fun _ => current.maxLength)
    minValue := updates.minValue.orElse (fun _ => current.minValue)
    maxValue := updates.maxValue.orElse (fun _ => current.maxValue)
    allowedFileTypes := updates.allowedFileTypes.orElse (fun _ => current.allowedFileTypes)
    maxFileSizeMb := updates.maxFileSizeMb.orElse (fun _ => current.maxFileSizeMb) }

/-- `{...section, ...updates}` for `updateSection`'s narrowed payload. -/
def applySectionUpdates (sec : AssessmentSection) (updates : SectionUpdates) :
    AssessmentSection :=
  {sec with
    title := updates.title.getD sec.title
    description := match updates.description with
      | some d => some d
      | none => sec.description
    timeLimitMinutes := updates.timeLimitMinutes.getD sec.timeLimitMinutes}

/-- `{...question, ...updates}` for `updateQuestion`'s narrowed payload. -/
def applyQuestionUpdates (question : AssessmentQuestion) (updates : QuestionUpdates) :
    AssessmentQuestion :=
  {question with
    type := updates.type.getD question.type
    label := updates.label.getD question.label
    description := match updates.description with
      | some d => some d
      | none => question.description
    helperText := match updates.helperText with
      | some h => some h
      | none => question.helperText
    required := updates.required.getD question.required
    validation := updates.validation.getD question.validation
    conditionalLogic := updates.conditionalLogic.getD question.conditionalLogic
    choices := updates.choices.getD question.choices}

/-- Replace the first element satisfying `p` — the JS
`findIndex` + `slice` + `questions[index] = …` pattern. -/
def updateFirst (p : α → Bool) (f : α → α) : List α → List α
  | [] => []
  | x :: xs => if p x then f x :: xs else x :: updateFirst p f xs

/-- `updateMetadata` (useAssessmentsStore.ts 161-173). -/
def updateMetadata (a : AssessmentRecord) (updates : MetadataUpdates) : AssessmentRecord :=
  {a with
    title := updates.title.getD a.title
    summary := updates.summary.getD a.summary
    role := updates.role.getD a.role
    difficulty := updates.difficulty.getD a.difficulty
    durationMinutes := updates.durationMinutes.getD a.durationMinutes
    tags := updates.tags.getD a.tags
    status := updates.status.getD a.status}

/-- `addSection` (useAssessmentsStore.ts 175-196). -/
def addSection (a : AssessmentRecord) (freshId : String) (payload : CreateSectionInput) :
    AssessmentRecord :=
  let sec : AssessmentSection := {
    id := freshId
    assessmentId := a.jobId
    order := (a.sections.length : Int)
    title := payload.title.getD s!"Section {a.sections.length + 1}"
    description := some (payload.description.getD "")
    timeLimitMinutes := payload.timeLimitMinutes.getD none
    questions := [] }
  {a with sections := a.sections ++ [sec]}

/-- `updateSection` (useAssessmentsStore.ts 198-213). -/
def updateSection (a : AssessmentRecord) (sectionId : String) (updates : SectionUpdates) :
    AssessmentRecord :=
  {a with sections := a.sections.map (fun sec =>
    if sec.id == sectionId then applySectionUpdates sec updates else sec)}

/-- `removeSection` (useAssessmentsStore.ts 215-228). -/
def removeSection (a : AssessmentRecord) (sectionId : String) : AssessmentRecord :=
  {a with sections :=
    normalizeSectionOrders (a.sections.filter (fun sec => sec.id != sectionId))}

/-- `reorderSections` (useAssessmentsStore.ts 230-248).  The JS `Map` built
from the section list resolves an id to the last section carrying it. -/
def reorderSections (a : AssessmentRecord) (sectionOrder : List String) : AssessmentRecord :=
  let ordered := sectionOrder.filterMap (fun sectionId =>
    (a.sections.filter (fun s => s.id == sectionId)).getLast?)
  let remaining := a.sections.filter (fun sec => !sectionOrder.contains sec.id)
  {a with sections := normalizeSectionOrders (ordered ++ remaining)}

/-- `addQuestion` (useAssessmentsStore.ts 250-284). -/
def addQuestion (a : AssessmentRecord) (gen : Nat → String) (sectionId : String)
    (payload : CreateQuestionInput) : AssessmentRecord :=
  {a with sections := a.sections.map (fun sec =>
    if sec.id != sectionId then sec
    else
      let t := payload.type.getD QuestionType.short_text
      let baseQuestion := createDefaultQuestion gen sec.id (sec.questions.length : Int) t
      let question : AssessmentQuestion := {baseQuestion with
        label := payload.label.getD baseQuestion.label
        description := match payload.description with
          | some d => some d
          | none => baseQuestion.description
        helperText := match payload.helperText with
          | some h => some h
          | none => baseQuestion.helperText
        required := payload.required.getD baseQuestion.required
        validation := mergeValidation baseQuestion.validation payload.validation
        conditionalLogic := match payload.conditionalLogic with
          | some c => some c
          | none => baseQuestion.conditionalLogic
        choices := match payload.choices with
          | some cs => some cs
          | none => baseQuestion.choices}
      {sec with questions := sec.questions ++ [question]})}

/-- `updateQuestion` (useAssessmentsStore.ts 286-308): the first question
with the id (across each section) is shallow-merged. -/
def updateQuestion (a : AssessmentRecord) (questionId : String) (updates : QuestionUpdates) :
    AssessmentRecord :=
  {a with sections := a.sections.map (fun sec =>
    {sec with questions :=
      (updateFirst (fun q => q.id == questionId)
        (fun q => applyQuestionUpdates q updates) sec.questions)})}

/-- `updateQuestionValidation` (useAssessmentsStore.ts 310-339). -/
def updateQuestionValidation (a : AssessmentRecord) (questionId : String)
    (validation : ValidationUpdates) : AssessmentRecord :=
  {a with sections := a.sections.map (fun sec =>
    {sec with questions :=
      (updateFirst (fun q => q.id == questionId)
        (fun q => {q with validation := mergeValidation q.validation validation})
        sec.questions)})}

/-- `updateQuestionConditional` (useAssessmentsStore.ts 341-366):
`conditional ?? undefined` collapses `null` into `undefined`. -/
def updateQuestionConditional (a : AssessmentRecord) (questionId : String)
    (conditional : Option QuestionConditionalLogic) : AssessmentRecord :=
  {a with sections := a.sections.map (fun sec =>
    {sec with questions :=
      (updateFirst (fun q => q.id == questionId)
        (fun q => {q with conditionalLogic := conditional}) sec.questions)})}

/-- `setQuestionChoices` (useAssessmentsStore.ts 368-393). -/
def setQuestionChoices (a : AssessmentRecord) (questionId : String)
    (choices : List QuestionChoice) : AssessmentRecord :=
  {a with sections := a.sections.map (fun sec =>
    {sec with questions :=
      (updateFirst (fun q => q.id == questionId)
        (fun q => {q with choices := some choices}) sec.questions)})}

/-- `removeQuestion` (useAssessmentsStore.ts 395-417). -/
def removeQuestion (a : AssessmentRecord) (questionId : String) : AssessmentRecord :=
  {a with sections := a.sections.map (fun sec =>
    if !sec.questions.any (fun q => q.id == questionId) then sec
    else {sec with questions :=
      normalizeQuestionOrders (sec.questions.filter (fun q => q.id != questionId))})}

/-- `reorderQuestions` (useAssessmentsStore.ts 419-444). -/
def reorderQuestions (a : AssessmentRecord) (sectionId : String)
    (questionOrder : List String) : AssessmentRecord :=
  {a with sections := a.sections.map (fun sec =>
    if sec.id != sectionId then sec
    else
      let ordered := questionOrder.filterMap (fun qid =>
        (sec.questions.filter (fun q => q.id == qid)).getLast?)
      let remaining := sec.questions.filter (fun q => !questionOrder.contains q.id)
      {sec with questions := normalizeQuestionOrders (ordered ++ remaining)})}

/-- `duplicateQuestion` (useAssessmentsStore.ts 446-476): in each section the
first question with the id (`findIndex`) is cloned with fresh ids and
appended; `gen 0` is the clone's id, `gen (j+1)` the id of its `j`-th
choice. -/
def duplicateQuestion (a : AssessmentRecord) (gen : Nat → String) (questionId : String) :
    AssessmentRecord :=
  {a with sections := a.sections.map (fun sec =>
    match sec.questions.find? (fun q => q.id == questionId) with
    | none => sec
    | some question =>
      let cloned : AssessmentQuestion := {question with
        id := gen 0
        order := (sec.questions.length : Int)
        choices := question.choices.map (fun cs =>
          mapWithIndex (fun j choice => {choice with id := gen (j + 1)}) 0 cs)}
      {sec with questions := sec.questions ++ [cloned]})}

/-! ## Repository `upsertAssessment` (src/unnamed/part_003, lines 428-449) -/

/-- `timestamped` (part_003, 428-431); `now` is the serialized current time. -/
def timestamped (assessment : AssessmentRecord) (now : String) : AssessmentRecord :=
  {assessment with updatedAt := now}

/-- The pure core of `upsertAssessment` (part_003, 433-449): refresh the
timestamp, then renormalize every section's `assessmentId`/`order` and every
question's `sectionId`/`order` before writing. -/
def upsertAssessment (assessment : AssessmentRecord) (now : String) : AssessmentRecord :=
  let record := timestamped assessment now
  {record with sections := mapWithIndex (fun sectionIndex sec =>
    {sec with
      assessmentId := record.jobId
      order := (sectionIndex : Int)
      questions := mapWithIndex (fun questionIndex question =>
        {question with sectionId := sec.id, order := (questionIndex : Int)})
        0 sec.questions}) 0 record.sections}

/-! ## Claim C1: visibility evaluator semantics -/

/-- Claim C1: a question with no conditional logic is always visible; with
conditional logic, a `null`/`undefined` target answer makes it invisible,
and for a single-string comparand `x` it is visible exactly when the target
answer is the string `x` or a list containing `x`, and invisible for every
other target value. -/
theorem c1_isQuestionVisible_spec (question : AssessmentQuestion) (values : FormValues) :
    (question.conditionalLogic = none → isQuestionVisible question values = true)
    ∧ (∀ cl, question.conditionalLogic = some cl →
        ((values cl.questionId = none ∨ values cl.questionId = some FormValue.null) →
          isQuestionVisible question values = false)
        ∧ (∀ x, cl.equals = EqualsValue.single x →
            (isQuestionVisible question values = true ↔
              (values cl.questionId = some (FormValue.str x)
               ∨ ∃ xs, values cl.questionId = some (FormValue.list xs) ∧ x ∈ xs)))) := by
  refine ⟨fun h => by simp [isQuestionVisible, h], fun cl hcl => ⟨fun h => ?_, fun x hx => ?_⟩⟩
  · rcases h with h | h <;> simp [isQuestionVisible, hcl, h]
  · simp only [isQuestionVisible, hcl, hx]
    cases hv : values cl.questionId with
    | none => simp
    | some tv =>
      cases tv with
      | str s => simp [hv, eq_comm (a := s)]
      | list xs => simp [hv]
      | num n => simp [hv]
      | file f => simp [hv]
      | null => simp [hv]

def c1WitnessQuestion : AssessmentQuestion :=
  { id := "B", sectionId := "s1", order := 0, type := QuestionType.short_text,
    label := "B", required := false, validation := {},
    conditionalLogic := some ⟨"A", EqualsValue.single "x"⟩ }

def c1WitnessValues : FormValues :=
  fun key => if key == "A" then some (FormValue.str "x") else none

theorem c1_isQuestionVisible_spec_witness :
    isQuestionVisible c1WitnessQuestion c1WitnessValues = true := by
  have h := (c1_isQuestionVisible_spec c1WitnessQuestion c1WitnessValues).2
    ⟨"A", EqualsValue.single "x"⟩ rfl
  exact (h.2 "x" rfl).mpr (Or.inl rfl)

/-! ## Claim C2 (counterexample): the validator can emit an issue for an
invisible question when that question's value fails its compiled union -/

def c2Question : AssessmentQuestion :=
  { id := "q1", sectionId := "s1", order := 0, type := QuestionType.multi_choice,
    label := "Pick", required := true, validation := {},
    conditionalLogic := some ⟨"q0", EqualsValue.single "x"⟩,
    choices := some [⟨"c1", "Yes", "yes"⟩, ⟨"c2", "No", "no"⟩] }

def c2Values : FormValues :=
  fun key =>
    if key == "q1" then some (FormValue.str "boom")
    else if key == "candidateName" then some (FormValue.str "Alex")
    else none

/-- Claim C2 counterexample: `q1` is invisible (its target `q0` is
unanswered), yet the compiled validator reports an issue at path `q1`,
because the string value fails multi-choice's structural union. -/
theorem c2_counterexample_invisible_question_issue :
    isQuestionVisible c2Question c2Values = false ∧
    (buildSubmissionSchema [c2Question] c2Values).any
      (fun i => i.path == "q1") = true := by
  constructor <;> rfl

/-! ## Claim C3 (counterexample): `"Infinity"` is not finite but passes -/

def c3Question : AssessmentQuestion :=
  { id := "n1", sectionId := "s1", order := 0, type := QuestionType.numeric,
    label := "How many", required := true, validation := {} }

def c3Values : FormValues :=
  fun key =>
    if key == "n1" then some (FormValue.str "Infinity")
    else if key == "candidateName" then some (FormValue.str "Alex")
    else none

/-- Claim C3 counterexample: the non-blank value `"Infinity"` does not parse
to a finite number, yet the validator accepts the record with no issue at
all — the code only rejects NaN (`Number.isNaN`), not non-finite values. -/
theorem c3_counterexample_infinity_accepted :
    toJsNumber (c3Values "n1") = JsNum.posInf ∧
    buildSubmissionSchema [c3Question] c3Values = [] := by
  constructor <;> rfl

/-! ## Claim C4 (counterexample): a hidden numeric question resets to `''`,
not `null` -/

def c4Question : AssessmentQuestion :=
  { id := "n1", sectionId := "s1", order := 0, type := QuestionType.numeric,
    label := "How many", required := true, validation := {},
    conditionalLogic := some ⟨"q0", EqualsValue.single "x"⟩ }

def c4Values : FormValues :=
  fun key => if key == "n1" then some (FormValue.num (JsNum.fin 5)) else none

/-- Claim C4 counterexample: the hidden numeric question `n1` is reset to
the empty string, not to `null` as the claim states. -/
theorem c4_counterexample_numeric_reset_to_empty_string :
    isQuestionVisible c4Question c4Values = false ∧
    resetHiddenValues [c4Question] c4Values "n1" = some (FormValue.str "") ∧
    some (FormValue.str "") ≠ some FormValue.null := by
  refine ⟨rfl, rfl, by simp⟩

/-! ## Claim C9 (counterexample): a whitespace-only candidateName passes -/

def c9Values : FormValues :=
  fun key => if key == "candidateName" then some (FormValue.str " ") else none

/-- Claim C9 counterexample: `candidateName` is `" "`, empty after trimming,
yet the validator reports no issue — `z.string().min(1)` does not trim. -/
theorem c9_counterexample_whitespace_name_accepted :
    jsTrim " " = "" ∧ buildSubmissionSchema [] c9Values = [] := by
  constructor <;> rfl

/-! ## Validator structure lemmas (shared by the claims about
`buildSubmissionSchema`) -/

theorem questionIssues_path (q : AssessmentQuestion) (v : Option FormValue) :
    ∀ i ∈ questionIssues q v, i.path = q.id := by
  intro i hi
  cases htype : q.type <;> simp only [questionIssues, htype] at hi <;>
    (repeat' split at hi) <;>
    simp only [List.mem_append, List.mem_singleton, List.not_mem_nil, or_false,
      false_or] at hi <;>
    first
      | exact hi.elim
      | ((rcases hi with rfl | rfl) <;> rfl)

theorem fieldCheckIssues_cases {schema : FieldSchema} {k : String} {v : Option FormValue}
    {i : Issue} (hi : i ∈ fieldCheckIssues schema k v) :
    (schema = FieldSchema.nameField ∨ schema = FieldSchema.emailField) ∧ i.path = k := by
  cases schema <;> cases v <;>
    (try (rename_i fv; cases fv)) <;>
    simp only [fieldCheckIssues] at hi <;>
    (repeat' split at hi) <;>
    simp only [List.mem_singleton, List.not_mem_nil] at hi <;>
    first
      | exact hi.elim
      | (subst hi; exact ⟨Or.inl rfl, rfl⟩)
      | (subst hi; exact ⟨Or.inr rfl, rfl⟩)

theorem questionFieldSchema_ne_base (t : QuestionType) :
    questionFieldSchema t ≠ FieldSchema.nameField ∧
    questionFieldSchema t ≠ FieldSchema.emailField := by
  cases t <;> simp [questionFieldSchema]

theorem fieldSchemaFor_base {questions : List AssessmentQuestion} {k : String}
    (h : fieldSchemaFor questions k = FieldSchema.nameField ∨
         fieldSchemaFor questions k = FieldSchema.emailField) :
    ∀ q ∈ questions, q.id ≠ k := by
  intro q hq hk
  have hmem : q ∈ questions.filter (fun q' => q'.id == k) :=
    List.mem_filter.2 ⟨hq, by simp [hk]⟩
  cases hlast : (questions.filter (fun q' => q'.id == k)).getLast? with
  | none =>
    rw [List.getLast?_eq_none_iff] at hlast
    rw [hlast] at hmem
    exact absurd hmem (List.not_mem_nil q)
  | some q' =>
    have : fieldSchemaFor questions k = questionFieldSchema q'.type := by
      simp only [fieldSchemaFor, hlast]
    rcases h with h | h <;> rw [this] at h
    · exact (questionFieldSchema_ne_base q'.type).1 h
    · exact (questionFieldSchema_ne_base q'.type).2 h

theorem shapeFieldIssues_path (questions : List AssessmentQuestion) (values : FormValues)
    (k : String) : ∀ i ∈ shapeFieldIssues questions values k, i.path = k := by
  intro i hi
  simp only [shapeFieldIssues] at hi
  split at hi
  · exact (fieldCheckIssues_cases hi).2
  · simp_all

theorem dedupKeysSeen_subset (x : String) :
    ∀ (seen l : List String), x ∈ dedupKeysSeen seen l → x ∈ l := by
  intro seen l
  induction l generalizing seen with
  | nil => simp [dedupKeysSeen]
  | cons k rest ih =>
    simp only [dedupKeysSeen]
    split
    · intro h; exact List.mem_cons_of_mem _ (ih seen h)
    · intro h
      rcases List.mem_cons.1 h with h | h
      · exact h ▸ List.mem_cons_self _ _
      · exact List.mem_cons_of_mem _ (ih _ h)

theorem mem_dedupKeysSeen (x : String) :
    ∀ (seen l : List String), x ∈ l → x ∉ seen → x ∈ dedupKeysSeen seen l := by
  intro seen l
  induction l generalizing seen with
  | nil => simp
  | cons k rest ih =>
    intro hl hs
    rcases List.mem_cons.1 hl with rfl | hl
    · simp only [dedupKeysSeen]
      split
      · rename_i hk
        exact absurd (by simpa using hk) hs
      · exact List.mem_cons_self _ _
    · simp only [dedupKeysSeen]
      split
      · exact ih seen hl hs
      · rename_i hk
        by_cases hxk : x = k
        · exact hxk ▸ List.mem_cons_self _ _
        · refine List.mem_cons_of_mem _ (ih _ hl ?_)
          intro hx
          rcases List.mem_cons.1 hx with h | h
          · exact hxk h
          · exact hs h

theorem mem_shapeKeys {questions : List AssessmentQuestion} {q : AssessmentQuestion}
    (hq : q ∈ questions) : q.id ∈ shapeKeys questions := by
  by_cases h1 : q.id = "candidateName"
  · rw [h1]; exact List.mem_cons_self _ _
  by_cases h2 : q.id = "candidateEmail"
  · rw [h2]; exact List.mem_cons_of_mem _ (List.mem_cons_self _ _)
  refine List.mem_cons_of_mem _ (List.mem_cons_of_mem _ ?_)
  refine mem_dedupKeysSeen _ _ _ ?_ (List.not_mem_nil _)
  refine List.mem_filter.2 ⟨List.mem_map_of_mem _ hq, ?_⟩
  simp [h1, h2]

theorem stripValues_at_question {questions : List AssessmentQuestion}
    {q : AssessmentQuestion} (values : FormValues) (hq : q ∈ questions) :
    stripValues questions values q.id = values q.id := by
  unfold stripValues
  rw [if_pos (by simpa using mem_shapeKeys hq)]

theorem isQuestionVisible_strip_imp (questions : List AssessmentQuestion)
    (values : FormValues) (q : AssessmentQuestion)
    (h : isQuestionVisible q (stripValues questions values) = true) :
    isQuestionVisible q values = true := by
  cases hcl : q.conditionalLogic with
  | none => simp [isQuestionVisible, hcl]
  | some cl =>
    by_cases hk : (shapeKeys questions).contains cl.questionId = true
    · have hkeq : stripValues questions values cl.questionId = values cl.questionId := by
        unfold stripValues; rw [if_pos hk]
      simp only [isQuestionVisible, hcl, hkeq] at h
      simp only [isQuestionVisible, hcl]
      exact h
    · have hkeq : stripValues questions values cl.questionId = none := by
        unfold stripValues; rw [if_neg hk]
      simp only [isQuestionVisible, hcl, hkeq] at h
      exact absurd h (by simp)

theorem shapeAborted_typeOk {questions : List AssessmentQuestion} {values : FormValues}
    (habort : shapeAborted questions values = false) :
    ∀ k ∈ shapeKeys questions, fieldTypeOk (fieldSchemaFor questions k) (values k) = true := by
  intro k hk
  by_contra h
  have : shapeAborted questions values = true := by
    unfold shapeAborted
    rw [List.any_eq_true]
    exact ⟨k, hk, by simp [Bool.eq_false_iff.2 h]⟩
  rw [this] at habort
  exact Bool.noConfusion habort

/-- With no structural failure, every issue of the compiled validator whose
path is some question's id comes from the refinement of a question that is
visible for the stripped record. -/
theorem buildSubmissionSchema_path_cases {questions : List AssessmentQuestion}
    {values : FormValues} {i : Issue}
    (habort : shapeAborted questions values = false)
    (hi : i ∈ buildSubmissionSchema questions values) :
    (∃ k ∈ shapeKeys questions,
        i ∈ fieldCheckIssues (fieldSchemaFor questions k) k (values k)
        ∧ i.path = k ∧ ∀ q ∈ questions, q.id ≠ k)
    ∨ (∃ q ∈ questions, isQuestionVisible q (stripValues questions values) = true
        ∧ i ∈ questionIssues q (stripValues questions values q.id) ∧ i.path = q.id) := by
  unfold buildSubmissionSchema at hi
  rw [habort] at hi
  simp only [Bool.false_eq_true, if_false] at hi
  rcases List.mem_append.1 hi with hs | hr
  · left
    obtain ⟨k, hk, hik⟩ := List.mem_flatMap.1 hs
    have htk := shapeAborted_typeOk habort k hk
    simp only [shapeFieldIssues] at hik
    rw [if_pos htk] at hik
    have hc := fieldCheckIssues_cases hik
    exact ⟨k, hk, hik, hc.2, fieldSchemaFor_base hc.1⟩
  · right
    obtain ⟨q, hq, hiq⟩ := List.mem_flatMap.1 hr
    split at hiq
    · rename_i hvis
      exact ⟨q, hq, hvis, hiq, questionIssues_path q _ i hiq⟩
    · exact absurd hiq (List.not_mem_nil i)

theorem string_length_lt_one_iff (s : String) : s.length < 1 ↔ s = "" := by
  rw [Nat.lt_one_iff]
  cases s with
  | mk data =>
    constructor
    · intro h
      have : data = [] := List.length_eq_zero.1 h
      rw [this]
    · intro h
      have : data = [] := congrArg String.data h
      rw [this]
      rfl

/-! ## Claim C2 (amended theorem) -/

/-- Claim C2 (amended): provided every field conforms to its compiled
structural union — as the form's own values always do — the validator emits
no issue for an invisible question; in particular a required invisible
question with a blank value never blocks submission. -/
theorem c2_amended_invisible_question_no_issue
    (questions : List AssessmentQuestion) (values : FormValues) (q : AssessmentQuestion)
    (habort : shapeAborted questions values = false)
    (hq : q ∈ questions)
    (hinv : ∀ q' ∈ questions, q'.id = q.id → isQuestionVisible q' values = false) :
    ∀ i ∈ buildSubmissionSchema questions values, i.path ≠ q.id := by
  intro i hi hip
  rcases buildSubmissionSchema_path_cases habort hi with
    ⟨k, _, _, hpath, hnoq⟩ | ⟨q', hq', hvis, _, hpath⟩
  · exact hnoq q hq (by rw [← hip]; exact hpath)
  · have hid : q'.id = q.id := by rw [← hpath, hip]
    have hbad := hinv q' hq' hid
    have hgood := isQuestionVisible_strip_imp questions values q' hvis
    rw [hbad] at hgood
    exact Bool.noConfusion hgood

def c2WitnessValues : FormValues :=
  fun key =>
    if key == "q1" then some (FormValue.list [])
    else if key == "candidateName" then some (FormValue.str "Alex")
    else none

theorem c2_amended_witness :
    (buildSubmissionSchema [c2Question] c2WitnessValues).all
      (fun i => i.path != "q1") = true := by
  have h := c2_amended_invisible_question_no_issue [c2Question] c2WitnessValues c2Question
    rfl (List.mem_singleton.2 rfl)
    (fun q' hq' _ => by rw [List.mem_singleton.1 hq']; rfl)
  rw [List.all_eq_true]
  intro i hi
  simpa using h i hi

/-! ## Claim C9 (amended theorem) -/

/-- Claim C9 (amended): when no question id collides with the base key, the
validator flags `candidateName` exactly when it is the empty string — the
`min(1)` check does not trim, so a whitespace-only name passes. -/
theorem c9_amended_candidateName_empty_iff
    (questions : List AssessmentQuestion) (values : FormValues) (s : String)
    (hname : values "candidateName" = some (FormValue.str s))
    (hid : ∀ q ∈ questions, q.id ≠ "candidateName") :
    ((buildSubmissionSchema questions values).any
        (fun i => i.path == "candidateName") = true ↔ s = "") := by
  have hschema : fieldSchemaFor questions "candidateName" = FieldSchema.nameField := by
    unfold fieldSchemaFor
    have hfilter : questions.filter (fun q => q.id == "candidateName") = [] :=
      List.filter_eq_nil_iff.2 (fun q hq => by simp [hid q hq])
    rw [hfilter]
    rfl
  constructor
  · intro hany
    obtain ⟨i, hi, hpi⟩ := List.any_eq_true.1 hany
    have hpath : i.path = "candidateName" := by simpa using hpi
    unfold buildSubmissionSchema at hi
    rcases List.mem_append.1 hi with hs | hr
    · obtain ⟨k, hk, hik⟩ := List.mem_flatMap.1 hs
      have hkpath := shapeFieldIssues_path questions values k i hik
      have hkey : k = "candidateName" := by rw [← hkpath, hpath]
      subst hkey
      simp only [shapeFieldIssues, hschema, hname] at hik
      split at hik
      · simp only [fieldCheckIssues] at hik
        split at hik
        · rename_i hlen
          exact (string_length_lt_one_iff s).1 hlen
        · exact absurd hik (List.not_mem_nil i)
      · rename_i hcond
        exact absurd rfl hcond
    · split at hr
      · exact absurd hr (List.not_mem_nil i)
      · obtain ⟨q', hq', hiq⟩ := List.mem_flatMap.1 hr
        split at hiq
        · have hqp := questionIssues_path q' _ i hiq
          have hqid : q'.id = "candidateName" := by rw [← hqp, hpath]
          exact absurd hqid (hid q' hq')
        · exact absurd hiq (List.not_mem_nil i)
  · intro hs
    subst hs
    rw [List.any_eq_true]
    refine ⟨⟨"candidateName", "Please share your name"⟩, ?_, by simp⟩
    unfold buildSubmissionSchema
    refine List.mem_append.2 (Or.inl ?_)
    rw [shapeIssues, List.mem_flatMap]
    refine ⟨"candidateName", List.mem_cons_self _ _, ?_⟩
    simp only [shapeFieldIssues, hschema, hname]
    split
    · simp [fieldCheckIssues]
    · rename_i hcond
      exact absurd rfl hcond

def c9WitnessValues : FormValues :=
  fun key => if key == "candidateName" then some (FormValue.str "") else none

theorem c9_amended_witness :
    (buildSubmissionSchema [] c9WitnessValues).any
      (fun i => i.path == "candidateName") = true :=
  (c9_amended_candidateName_empty_iff [] c9WitnessValues "" rfl
    (fun q hq => absurd hq (List.not_mem_nil q))).mpr rfl

/-! ## Claim C3 (amended theorem) -/

theorem numeric_questionIssues_empty_iff (q : AssessmentQuestion) (raw : Option FormValue)
    (hnum : q.type = QuestionType.numeric)
    (hblank : (raw == some (FormValue.str "") || raw == none
        || raw == some FormValue.null) = false) :
    (questionIssues q raw = [] ↔
      (toJsNumber raw ≠ JsNum.nan
       ∧ (∀ m, q.validation.minValue = some m →
           jsNumLt (toJsNumber raw) (JsNum.fin m) = false)
       ∧ (∀ m, q.validation.maxValue = some m →
           jsNumLt (JsNum.fin m) (toJsNumber raw) = false))) := by
  simp only [questionIssues, hnum, hblank, Bool.false_eq_true, if_false]
  by_cases hnan : toJsNumber raw = JsNum.nan
  · rw [hnan]
    simp
  · have hbeq : (toJsNumber raw == JsNum.nan) = false := by simp [hnan]
    rw [hbeq]
    simp only [Bool.false_eq_true, if_false, List.append_eq_nil]
    cases hm : q.validation.minValue <;> cases hM : q.validation.maxValue <;>
      simp [hnan]

/-- Claim C3 (amended): for a visible numeric question with a non-blank
value (and no structural failure and no duplicate ids), the validator emits
no issue for that question exactly when the coerced number is not NaN and
respects the configured inclusive bounds.  (The original claim required the
value to parse to a *finite* number, but the code only rejects NaN:
`"Infinity"` is accepted when no upper bound is set.) -/
theorem c3_amended_numeric_validation
    (questions : List AssessmentQuestion) (values : FormValues) (q : AssessmentQuestion)
    (habort : shapeAborted questions values = false)
    (hq : q ∈ questions) (hnum : q.type = QuestionType.numeric)
    (hvis : isQuestionVisible q (stripValues questions values) = true)
    (hblank : (values q.id == some (FormValue.str "") || values q.id == none
        || values q.id == some FormValue.null) = false)
    (hids : ∀ q' ∈ questions, q'.id = q.id → q' = q) :
    ((buildSubmissionSchema questions values).all (fun i => i.path != q.id) = true
      ↔ (toJsNumber (values q.id) ≠ JsNum.nan
         ∧ (∀ m, q.validation.minValue = some m →
             jsNumLt (toJsNumber (values q.id)) (JsNum.fin m) = false)
         ∧ (∀ m, q.validation.maxValue = some m →
             jsNumLt (JsNum.fin m) (toJsNumber (values q.id)) = false))) := by
  have hstrip := stripValues_at_question (q := q) values hq
  rw [← numeric_questionIssues_empty_iff q (values q.id) hnum hblank]
  constructor
  · intro hall
    by_contra hne
    obtain ⟨i, hi⟩ := List.exists_mem_of_ne_nil _ hne
    have hmem : i ∈ buildSubmissionSchema questions values := by
      unfold buildSubmissionSchema
      refine List.mem_append.2 (Or.inr ?_)
      rw [habort]
      simp only [Bool.false_eq_true, if_false]
      rw [refineIssues, List.mem_flatMap]
      refine ⟨q, hq, ?_⟩
      rw [if_pos hvis, hstrip]
      exact hi
    have hthis := List.all_eq_true.1 hall i hmem
    have hpath := questionIssues_path q _ i hi
    simp [hpath] at hthis
  · intro hempty
    rw [List.all_eq_true]
    intro i hi
    rcases buildSubmissionSchema_path_cases habort hi with
      ⟨k, _, _, hpath, hnoq⟩ | ⟨q', hq', hvis', hiq, hpath⟩
    · simp only [bne_iff_ne, ne_eq]
      rw [hpath]
      exact fun hkq => hnoq q hq hkq.symm
    · by_cases hsame : q'.id = q.id
      · have hq'q : q' = q := hids q' hq' hsame
        subst hq'q
        rw [hstrip, hempty] at hiq
        exact absurd hiq (List.not_mem_nil i)
      · simp only [bne_iff_ne, ne_eq, hpath]
        exact hsame

def c3WitnessQuestion : AssessmentQuestion :=
  { id := "n1", sectionId := "s1", order := 0, type := QuestionType.numeric,
    label := "How many", required := true,
    validation := { minValue := some 0, maxValue := some 500 } }

def c3WitnessValues : FormValues :=
  fun key =>
    if key == "n1" then some (FormValue.num (JsNum.fin 500))
    else if key == "candidateName" then some (FormValue.str "Alex")
    else none

theorem c3_amended_witness :
    (buildSubmissionSchema [c3WitnessQuestion] c3WitnessValues).all
      (fun i => i.path != "n1") = true := by
  have h := c3_amended_numeric_validation [c3WitnessQuestion] c3WitnessValues
    c3WitnessQuestion rfl (List.mem_singleton.2 rfl) rfl rfl rfl
    (fun q' hq' _ => List.mem_singleton.1 hq')
  exact h.mpr ⟨by decide,
    fun m hm => by injection hm with h1; subst h1; rfl,
    fun m hm => by injection hm with h1; subst h1; rfl⟩

/-! ## Claim C4 (amended theorem): hidden-question reset targets -/

theorem isEqualValue_none (d : FormValue) : isEqualValue none d = false := by
  cases d <;> rfl

theorem isEqualValue_some_iff (v d : FormValue) : isEqualValue (some v) d = true ↔ v = d := by
  cases v <;> cases d <;> simp [isEqualValue]

/-- The reset fold writes only at the ids of the questions it processes. -/
theorem resetHidden_foldl_frame (values : FormValues) :
    ∀ (qs : List AssessmentQuestion) (acc : FormValues) (k : String),
      (∀ q ∈ qs, q.id ≠ k) →
      qs.foldl (fun acc question =>
        let expectedDefault := questionDefaultValue question
        let currentValue := values question.id
        let visible := isQuestionVisible question values
        if !visible && !isEqualValue currentValue expectedDefault then
          fun key => if key == question.id then some expectedDefault else acc key
        else acc) acc k = acc k := by
  intro qs
  induction qs with
  | nil => intro acc k _; rfl
  | cons q rest ih =>
    intro acc k hk
    rw [List.foldl_cons]
    rw [ih _ k (fun p hp => hk p (List.mem_cons_of_mem _ hp))]
    split
    · have hkq : (k == q.id) = false := by
        simp [Ne.symm (hk q (List.mem_cons_self _ _))]
      simp only [hkq, Bool.false_eq_true, if_false]
    · rfl

theorem resetHidden_foldl_hidden (values : FormValues) :
    ∀ (qs : List AssessmentQuestion) (acc : FormValues) (q : AssessmentQuestion),
      q ∈ qs → (qs.map (fun q' => q'.id)).Nodup →
      isQuestionVisible q values = false →
      acc q.id = values q.id →
      qs.foldl (fun acc question =>
        let expectedDefault := questionDefaultValue question
        let currentValue := values question.id
        let visible := isQuestionVisible question values
        if !visible && !isEqualValue currentValue expectedDefault then
          fun key => if key == question.id then some expectedDefault else acc key
        else acc) acc q.id = some (questionDefaultValue q) := by
  intro qs
  induction qs with
  | nil => intro acc q hq _ _ _; exact absurd hq (List.not_mem_nil q)
  | cons q' rest ih =>
    intro acc q hq hnd hinv hacc
    have hnd' := hnd
    rw [List.map_cons, List.nodup_cons] at hnd'
    obtain ⟨hhead, htail⟩ := hnd'
    rcases List.mem_cons.1 hq with rfl | hqrest
    · -- the head is our question; the tail never touches its id again
      have hrest : ∀ p ∈ rest, p.id ≠ q.id := by
        intro p hp hpq
        exact hhead (hpq ▸ List.mem_map_of_mem _ hp)
      rw [List.foldl_cons]
      rw [resetHidden_foldl_frame values rest _ q.id hrest]
      simp only [hinv, Bool.not_false, Bool.true_and]
      by_cases heq : isEqualValue (values q.id) (questionDefaultValue q) = true
      · rw [if_neg (by simp [heq])]
        cases hv : values q.id with
        | none => rw [hv, isEqualValue_none] at heq; exact Bool.noConfusion heq
        | some v =>
          rw [hv] at heq hacc
          rw [hacc]
          rw [(isEqualValue_some_iff v _).1 heq]
      · rw [if_pos (by simp [Bool.eq_false_iff.2 heq])]
        simp
    · -- our question sits in the tail; the head write cannot shadow it
      have hne : q'.id ≠ q.id := by
        intro h
        exact hhead (h ▸ List.mem_map_of_mem _ hqrest)
      rw [List.foldl_cons]
      refine ih _ q hqrest htail hinv ?_
      dsimp only
      split
      · have hqq : (q.id == q'.id) = false := by simp [Ne.symm hne]
        simp only [hqq, Bool.false_eq_true, if_false, hacc]
      · exact hacc

/-- Claim C4 (amended): every question hidden under the current form values
is reset by the pre-validation pass to its type's empty default — which is
`''` for short_text, long_text, single_choice *and numeric* questions, `[]`
for multi_choice, and `null` only for file_upload.  (The original claim said
numeric resets to `null`; the source's `questionDefaultValue` returns `''`.) -/
theorem c4_amended_hidden_reset (questions : List AssessmentQuestion) (values : FormValues)
    (q : AssessmentQuestion)
    (hnd : (questions.map (fun q' => q'.id)).Nodup)
    (hq : q ∈ questions)
    (hinv : isQuestionVisible q values = false) :
    resetHiddenValues questions values q.id = some (questionDefaultValue q)
    ∧ questionDefaultValue q = (match q.type with
        | QuestionType.multi_choice => FormValue.list []
        | QuestionType.file_upload => FormValue.null
        | _ => FormValue.str "") := by
  constructor
  · exact resetHidden_foldl_hidden values questions values q hq hnd hinv rfl
  · cases htype : q.type <;> simp [questionDefaultValue, htype]

theorem c4_amended_witness :
    resetHiddenValues [c4Question] c4Values "n1" = some (FormValue.str "") := by
  have h := c4_amended_hidden_reset [c4Question] c4Values c4Question
    (by simp) (List.mem_singleton.2 rfl) rfl
  exact h.1

/-! ## Order-density machinery (claims C5 and C6) -/

/-- `denseFrom ord n l`: the `ord` projections of `l` are the consecutive
integers `n, n+1, …`.  `denseFrom ord 0` is the spec's "contiguous 0..n-1"
invariant. -/
def denseFrom (ord : α → Int) : Int → List α → Bool
  | _, [] => true
  | n, x :: rest => (ord x == n) && denseFrom ord (n + 1) rest

/-- The claimed invariant: section orders are `0..n-1` and each section's
question orders are `0..m-1`. -/
def assessmentOrdersDense (a : AssessmentRecord) : Bool :=
  denseFrom (fun s => s.order) 0 a.sections
    && a.sections.all (fun s => denseFrom (fun q => q.order) 0 s.questions)

theorem denseFrom_mapWithIndex (ord : α → Int) (g : Nat → α → α)
    (hg : ∀ i x, ord (g i x) = (i : Int)) :
    ∀ (l : List α) (k : Nat), denseFrom ord (k : Int) (mapWithIndex g k l) = true := by
  intro l
  induction l with
  | nil => intro k; rfl
  | cons x rest ih =>
    intro k
    simp only [mapWithIndex, denseFrom, hg, beq_self_eq_true, Bool.true_and]
    have hcast : ((k : Int) + 1) = ((k + 1 : Nat) : Int) := by push_cast; ring
    rw [hcast]
    exact ih (k + 1)

theorem denseFrom_normalizeSectionOrders (l : List AssessmentSection) :
    denseFrom (fun s => s.order) 0 (normalizeSectionOrders l) = true := by
  have h := denseFrom_mapWithIndex (fun s : AssessmentSection => s.order)
    (fun index section' => {section' with order := (index : Int)}) (fun _ _ => rfl) l 0
  simpa using h

theorem denseFrom_normalizeQuestionOrders (l : List AssessmentQuestion) :
    denseFrom (fun q => q.order) 0 (normalizeQuestionOrders l) = true := by
  have h := denseFrom_mapWithIndex (fun q : AssessmentQuestion => q.order)
    (fun index question => {question with order := (index : Int)}) (fun _ _ => rfl) l 0
  simpa using h

theorem denseFrom_append_singleton (ord : α → Int) :
    ∀ (l : List α) (n : Int) (x : α), denseFrom ord n l = true →
      ord x = n + l.length → denseFrom ord n (l ++ [x]) = true := by
  intro l
  induction l with
  | nil =>
    intro n x _ hx
    simp only [List.nil_append, denseFrom, Bool.and_eq_true]
    exact ⟨by simp [hx], trivial⟩
  | cons y rest ih =>
    intro n x hd hx
    simp only [denseFrom, Bool.and_eq_true] at hd
    simp only [List.cons_append, denseFrom, Bool.and_eq_true]
    refine ⟨hd.1, ih (n + 1) x hd.2 ?_⟩
    rw [hx]
    simp only [List.length_cons]
    push_cast
    ring

theorem denseFrom_map_of_ord_eq (ord : α → Int) (f : α → α) (hf : ∀ x, ord (f x) = ord x) :
    ∀ (l : List α) (n : Int), denseFrom ord n (l.map f) = denseFrom ord n l := by
  intro l
  induction l with
  | nil => intro n; rfl
  | cons x rest ih =>
    intro n
    simp only [List.map_cons, denseFrom, hf, ih]

theorem denseFrom_updateFirst (ord : α → Int) (p : α → Bool) (f : α → α)
    (hf : ∀ x, ord (f x) = ord x) :
    ∀ (l : List α) (n : Int), denseFrom ord n (updateFirst p f l) = denseFrom ord n l := by
  intro l
  induction l with
  | nil => intro n; rfl
  | cons x rest ih =>
    intro n
    simp only [updateFirst]
    split
    · simp only [denseFrom, hf]
    · simp only [denseFrom, ih]

theorem all_mapWithIndex (g : Nat → α → α) (P : α → Bool) (h : ∀ i x, P (g i x) = P x) :
    ∀ (l : List α) (k : Nat), (mapWithIndex g k l).all P = l.all P := by
  intro l
  induction l with
  | nil => intro k; rfl
  | cons x rest ih =>
    intro k
    simp only [mapWithIndex, List.all_cons, h, ih]

theorem all_updateFirst (p : α → Bool) (f : α → α) (P : α → Bool)
    (h : ∀ x, P (f x) = P x) :
    ∀ l : List α, (updateFirst p f l).all P = l.all P := by
  intro l
  induction l with
  | nil => rfl
  | cons x rest ih =>
    simp only [updateFirst]
    split
    · simp only [List.all_cons, h]
    · simp only [List.all_cons, ih]

theorem mem_mapWithIndex {g : Nat → α → β} :
    ∀ {l : List α} {k : Nat} {y : β}, y ∈ mapWithIndex g k l → ∃ i x, x ∈ l ∧ y = g i x := by
  intro l
  induction l with
  | nil => intro k y hy; exact absurd hy (List.not_mem_nil y)
  | cons x rest ih =>
    intro k y hy
    rcases List.mem_cons.1 hy with rfl | hy
    · exact ⟨k, x, List.mem_cons_self _ _, rfl⟩
    · obtain ⟨i, x', hx', rfl⟩ := ih hy
      exact ⟨i, x', List.mem_cons_of_mem _ hx', rfl⟩

theorem mapWithIndex_exists_of_mem {g : Nat → α → β} :
    ∀ {l : List α} {k : Nat} {x : α}, x ∈ l → ∃ i, g i x ∈ mapWithIndex g k l := by
  intro l
  induction l with
  | nil => intro k x hx; exact absurd hx (List.not_mem_nil x)
  | cons y rest ih =>
    intro k x hx
    rcases List.mem_cons.1 hx with rfl | hx
    · exact ⟨k, List.mem_cons_self _ _⟩
    · obtain ⟨i, hi⟩ := ih (k := k + 1) hx
      exact ⟨i, List.mem_cons_of_mem _ hi⟩

/-! ## Claim C5: every builder mutation preserves dense orders -/

theorem dense_map_sections (a : AssessmentRecord) (f : AssessmentSection → AssessmentSection)
    (hord : ∀ s, (f s).order = s.order)
    (hq : ∀ s, denseFrom (fun q => q.order) 0 s.questions = true →
          denseFrom (fun q => q.order) 0 (f s).questions = true)
    (h : assessmentOrdersDense a = true) :
    (denseFrom (fun s => s.order) 0 (a.sections.map f)
      && (a.sections.map f).all
          (fun s => denseFrom (fun q => q.order) 0 s.questions)) = true := by
  rw [assessmentOrdersDense, Bool.and_eq_true] at h
  obtain ⟨h1, h2⟩ := h
  rw [Bool.and_eq_true]
  constructor
  · rw [denseFrom_map_of_ord_eq _ f hord]; exact h1
  · rw [List.all_eq_true]
    intro x hx
    obtain ⟨y, hy, rfl⟩ := List.mem_map.1 hx
    exact hq y (List.all_eq_true.1 h2 y hy)

theorem createDefaultQuestion_order (gen : Nat → String) (sid : String) (ord : Int)
    (t : QuestionType) : (createDefaultQuestion gen sid ord t).order = ord := by
  cases t <;> rfl

theorem all_normalizeSectionOrders (l : List AssessmentSection)
    (P : AssessmentSection → Bool) (hP : ∀ (i : Nat) (s : AssessmentSection),
      P {s with order := (i : Int)} = P s) :
    (normalizeSectionOrders l).all P = l.all P := by
  rw [normalizeSectionOrders]
  exact all_mapWithIndex _ P hP l 0

theorem all_filter_of_all (p : α → Bool) (P : α → Bool) (l : List α)
    (h : l.all P = true) : (l.filter p).all P = true := by
  rw [List.all_eq_true] at h ⊢
  intro x hx
  exact h x (List.mem_filter.1 hx).1

theorem ordersDense_updateMetadata (a : AssessmentRecord) (mu : MetadataUpdates)
    (h : assessmentOrdersDense a = true) :
    assessmentOrdersDense (updateMetadata a mu) = true := h

theorem ordersDense_addSection (a : AssessmentRecord) (freshId : String)
    (sp : CreateSectionInput) (h : assessmentOrdersDense a = true) :
    assessmentOrdersDense (addSection a freshId sp) = true := by
  rw [assessmentOrdersDense, Bool.and_eq_true] at h
  obtain ⟨h1, h2⟩ := h
  rw [addSection, assessmentOrdersDense, Bool.and_eq_true]
  constructor
  · exact denseFrom_append_singleton _ _ _ _ h1 (zero_add _).symm
  · rw [List.all_append, Bool.and_eq_true]
    exact ⟨h2, rfl⟩

theorem ordersDense_updateSection (a : AssessmentRecord) (sectionId : String)
    (su : SectionUpdates) (h : assessmentOrdersDense a = true) :
    assessmentOrdersDense (updateSection a sectionId su) = true := by
  refine dense_map_sections a _ (fun s => ?_) (fun s hs => ?_) h
  · dsimp only; split <;> rfl
  · dsimp only; split
    · exact hs
    · exact hs

theorem ordersDense_removeSection (a : AssessmentRecord) (sectionId : String)
    (h : assessmentOrdersDense a = true) :
    assessmentOrdersDense (removeSection a sectionId) = true := by
  rw [assessmentOrdersDense, Bool.and_eq_true] at h
  obtain ⟨_, h2⟩ := h
  rw [removeSection, assessmentOrdersDense, Bool.and_eq_true]
  constructor
  · exact denseFrom_normalizeSectionOrders _
  · exact (all_normalizeSectionOrders _ _ (by intro i s; rfl)).trans
      (all_filter_of_all _ _ _ h2)

theorem ordersDense_reorderSections (a : AssessmentRecord) (sectionOrder : List String)
    (h : assessmentOrdersDense a = true) :
    assessmentOrdersDense (reorderSections a sectionOrder) = true := by
  rw [assessmentOrdersDense, Bool.and_eq_true] at h
  obtain ⟨_, h2⟩ := h
  rw [reorderSections, assessmentOrdersDense, Bool.and_eq_true]
  constructor
  · exact denseFrom_normalizeSectionOrders _
  · refine (all_normalizeSectionOrders _ _ (by intro i s; rfl)).trans ?_
    rw [List.all_append, Bool.and_eq_true]
    constructor
    · rw [List.all_eq_true]
      intro x hx
      obtain ⟨sid, _, hlast⟩ := List.mem_filterMap.1 hx
      have hxmem : x ∈ a.sections.filter (fun s => s.id == sid) :=
        List.mem_of_mem_getLast? hlast
      exact List.all_eq_true.1 h2 x (List.mem_filter.1 hxmem).1
    · exact all_filter_of_all _ _ _ h2

theorem ordersDense_addQuestion (a : AssessmentRecord) (gen : Nat → String)
    (sectionId : String) (qp : CreateQuestionInput)
    (h : assessmentOrdersDense a = true) :
    assessmentOrdersDense (addQuestion a gen sectionId qp) = true := by
  refine dense_map_sections a _ (fun s => ?_) (fun s hs => ?_) h
  · dsimp only; split <;> rfl
  · dsimp only; split
    · exact hs
    · refine denseFrom_append_singleton _ _ _ _ hs ?_
      rw [show (({createDefaultQuestion gen s.id (s.questions.length : Int)
            (qp.type.getD QuestionType.short_text) with
          label := (qp.label.getD (createDefaultQuestion gen s.id (s.questions.length : Int)
            (qp.type.getD QuestionType.short_text)).label)} : AssessmentQuestion).order)
          = (s.questions.length : Int) from by
        exact createDefaultQuestion_order gen s.id _ _]
      exact (zero_add _).symm

theorem ordersDense_updateQuestion (a : AssessmentRecord) (questionId : String)
    (qu : QuestionUpdates) (h : assessmentOrdersDense a = true) :
    assessmentOrdersDense (updateQuestion a questionId qu) = true := by
  refine dense_map_sections a _ (fun s => rfl) (fun s hs => ?_) h
  dsimp only
  exact (denseFrom_updateFirst (fun q => q.order) (fun q => q.id == questionId)
    (fun q => applyQuestionUpdates q qu) (by intro x; rfl) s.questions 0).trans hs

theorem ordersDense_updateQuestionValidation (a : AssessmentRecord) (questionId : String)
    (vu : ValidationUpdates) (h : assessmentOrdersDense a = true) :
    assessmentOrdersDense (updateQuestionValidation a questionId vu) = true := by
  refine dense_map_sections a _ (fun s => rfl) (fun s hs => ?_) h
  dsimp only
  exact (denseFrom_updateFirst (fun q => q.order) (fun q => q.id == questionId)
    (fun q => {q with validation := mergeValidation q.validation vu}) (by intro x; rfl) s.questions 0).trans hs

theorem ordersDense_updateQuestionConditional (a : AssessmentRecord) (questionId : String)
    (cond : Option QuestionConditionalLogic) (h : assessmentOrdersDense a = true) :
    assessmentOrdersDense (updateQuestionConditional a questionId cond) = true := by
  refine dense_map_sections a _ (fun s => rfl) (fun s hs => ?_) h
  dsimp only
  exact (denseFrom_updateFirst (fun q => q.order) (fun q => q.id == questionId)
    (fun q => {q with conditionalLogic := cond}) (by intro x; rfl) s.questions 0).trans hs

theorem ordersDense_setQuestionChoices (a : AssessmentRecord) (questionId : String)
    (cs : List QuestionChoice) (h : assessmentOrdersDense a = true) :
    assessmentOrdersDense (setQuestionChoices a questionId cs) = true := by
  refine dense_map_sections a _ (fun s => rfl) (fun s hs => ?_) h
  dsimp only
  exact (denseFrom_updateFirst (fun q => q.order) (fun q => q.id == questionId)
    (fun q => {q with choices := some cs}) (by intro x; rfl) s.questions 0).trans hs

theorem ordersDense_removeQuestion (a : AssessmentRecord) (questionId : String)
    (h : assessmentOrdersDense a = true) :
    assessmentOrdersDense (removeQuestion a questionId) = true := by
  refine dense_map_sections a _ (fun s => ?_) (fun s hs => ?_) h
  · dsimp only; split <;> rfl
  · dsimp only; split
    · exact hs
    · exact denseFrom_normalizeQuestionOrders _

theorem ordersDense_reorderQuestions (a : AssessmentRecord) (sectionId : String)
    (questionOrder : List String) (h : assessmentOrdersDense a = true) :
    assessmentOrdersDense (reorderQuestions a sectionId questionOrder) = true := by
  refine dense_map_sections a _ (fun s => ?_) (fun s hs => ?_) h
  · dsimp only; split <;> rfl
  · dsimp only; split
    · exact hs
    · exact denseFrom_normalizeQuestionOrders _

theorem ordersDense_duplicateQuestion (a : AssessmentRecord) (gen : Nat → String)
    (questionId : String) (h : assessmentOrdersDense a = true) :
    assessmentOrdersDense (duplicateQuestion a gen questionId) = true := by
  refine dense_map_sections a _ (fun s => ?_) (fun s hs => ?_) h
  · dsimp only; split <;> rfl
  · dsimp only; split
    · exact hs
    · exact denseFrom_append_singleton _ _ _ _ hs (zero_add _).symm

/-- Claim C5: starting from dense section and question orders, every builder
mutation (the update operations, add/remove/duplicate, and the reorders)
leaves section orders contiguous from 0 and every section's question orders
contiguous from 0. -/
theorem c5_mutations_preserve_dense_orders
    (a : AssessmentRecord) (gen : Nat → String) (freshId sectionId questionId : String)
    (mu : MetadataUpdates) (sp : CreateSectionInput) (su : SectionUpdates)
    (qp : CreateQuestionInput) (qu : QuestionUpdates) (vu : ValidationUpdates)
    (cond : Option QuestionConditionalLogic) (cs : List QuestionChoice)
    (sectionOrder questionOrder : List String)
    (h : assessmentOrdersDense a = true) :
    assessmentOrdersDense (updateMetadata a mu) = true
    ∧ assessmentOrdersDense (addSection a freshId sp) = true
    ∧ assessmentOrdersDense (updateSection a sectionId su) = true
    ∧ assessmentOrdersDense (removeSection a sectionId) = true
    ∧ assessmentOrdersDense (reorderSections a sectionOrder) = true
    ∧ assessmentOrdersDense (addQuestion a gen sectionId qp) = true
    ∧ assessmentOrdersDense (updateQuestion a questionId qu) = true
    ∧ assessmentOrdersDense (updateQuestionValidation a questionId vu) = true
    ∧ assessmentOrdersDense (updateQuestionConditional a questionId cond) = true
    ∧ assessmentOrdersDense (setQuestionChoices a questionId cs) = true
    ∧ assessmentOrdersDense (removeQuestion a questionId) = true
    ∧ assessmentOrdersDense (reorderQuestions a sectionId questionOrder) = true
    ∧ assessmentOrdersDense (duplicateQuestion a gen questionId) = true :=
  ⟨ordersDense_updateMetadata a mu h,
   ordersDense_addSection a freshId sp h,
   ordersDense_updateSection a sectionId su h,
   ordersDense_removeSection a sectionId h,
   ordersDense_reorderSections a sectionOrder h,
   ordersDense_addQuestion a gen sectionId qp h,
   ordersDense_updateQuestion a questionId qu h,
   ordersDense_updateQuestionValidation a questionId vu h,
   ordersDense_updateQuestionConditional a questionId cond h,
   ordersDense_setQuestionChoices a questionId cs h,
   ordersDense_removeQuestion a questionId h,
   ordersDense_reorderQuestions a sectionId questionOrder h,
   ordersDense_duplicateQuestion a gen questionId h⟩

def c5WitnessAssessment : AssessmentRecord :=
  { id := "a1", jobId := "job1", title := "T", summary := "", role := "R",
    difficulty := Difficulty.medium, durationMinutes := 60,
    status := AssessmentStatus.draft, tags := [],
    createdAt := "t0", updatedAt := "t0",
    sections := [
      { id := "s1", assessmentId := "job1", order := 0, title := "S1",
        questions := [
          { id := "q1", sectionId := "s1", order := 0, type := QuestionType.short_text,
            label := "Q1", required := true, validation := {} },
          { id := "q2", sectionId := "s1", order := 1, type := QuestionType.single_choice,
            label := "Q2", required := false, validation := {},
            choices := some [⟨"c1", "Yes", "yes"⟩, ⟨"c2", "No", "no"⟩] } ] },
      { id := "s2", assessmentId := "job1", order := 1, title := "S2",
        questions := [] } ] }

def c5WitnessGen : Nat → String := fun n => s!"fresh-{n}"

theorem c5_witness :
    assessmentOrdersDense (removeSection c5WitnessAssessment "s1") = true ∧
    assessmentOrdersDense (duplicateQuestion c5WitnessAssessment c5WitnessGen "q1") = true := by
  have h := c5_mutations_preserve_dense_orders c5WitnessAssessment c5WitnessGen
    "ns" "s1" "q1" {} {} {} {} {} {} none [] ["s2", "s1"] ["q2"] rfl
  exact ⟨h.2.2.2.1, h.2.2.2.2.2.2.2.2.2.2.2.2⟩

/-! ## Claim C10: question operations with an absent id are no-ops -/

theorem updateFirst_of_none (p : α → Bool) (f : α → α) :
    ∀ l : List α, (∀ x ∈ l, p x = false) → updateFirst p f l = l := by
  intro l
  induction l with
  | nil => intro _; rfl
  | cons x rest ih =>
    intro hl
    simp only [updateFirst, hl x (List.mem_cons_self _ _), Bool.false_eq_true, if_false]
    rw [ih (fun y hy => hl y (List.mem_cons_of_mem _ hy))]

theorem record_map_sections_id (a : AssessmentRecord)
    (f : AssessmentSection → AssessmentSection) (hf : ∀ s ∈ a.sections, f s = s) :
    ({a with sections := a.sections.map f} : AssessmentRecord) = a := by
  have hmap : a.sections.map f = a.sections := by
    rw [List.map_congr_left hf]
    exact List.map_id' a.sections
  rw [hmap]

/-- Claim C10: when no question in any section carries the id, each
identifier-targeted question operation returns the assessment unchanged —
no section is rebuilt, no order rewritten, nothing added or removed. -/
theorem c10_absent_question_id_frame
    (a : AssessmentRecord) (gen : Nat → String) (questionId : String)
    (qu : QuestionUpdates) (vu : ValidationUpdates)
    (cond : Option QuestionConditionalLogic) (cs : List QuestionChoice)
    (habs : ∀ s ∈ a.sections, ∀ q ∈ s.questions, q.id ≠ questionId) :
    updateQuestion a questionId qu = a
    ∧ updateQuestionValidation a questionId vu = a
    ∧ updateQuestionConditional a questionId cond = a
    ∧ setQuestionChoices a questionId cs = a
    ∧ removeQuestion a questionId = a
    ∧ duplicateQuestion a gen questionId = a := by
  have hfalse : ∀ s ∈ a.sections, ∀ q ∈ s.questions, (q.id == questionId) = false :=
    fun s hs q hq => beq_eq_false_iff_ne.2 (habs s hs q hq)
  refine ⟨?_, ?_, ?_, ?_, ?_, ?_⟩
  · refine record_map_sections_id a _ (fun s hs => ?_)
    dsimp only
    rw [updateFirst_of_none _ _ _ (hfalse s hs)]
  · refine record_map_sections_id a _ (fun s hs => ?_)
    dsimp only
    rw [updateFirst_of_none _ _ _ (hfalse s hs)]
  · refine record_map_sections_id a _ (fun s hs => ?_)
    dsimp only
    rw [updateFirst_of_none _ _ _ (hfalse s hs)]
  · refine record_map_sections_id a _ (fun s hs => ?_)
    dsimp only
    rw [updateFirst_of_none _ _ _ (hfalse s hs)]
  · refine record_map_sections_id a _ (fun s hs => ?_)
    dsimp only
    have hany : s.questions.any (fun q => q.id == questionId) = false :=
      List.any_eq_false.2 (fun q hq => by simp [hfalse s hs q hq])
    rw [hany]
    rfl
  · refine record_map_sections_id a _ (fun s hs => ?_)
    dsimp only
    have hfind : s.questions.find? (fun q => q.id == questionId) = none :=
      List.find?_eq_none.2 (fun q hq => by simp [hfalse s hs q hq])
    rw [hfind]

def c10WitnessAssessment : AssessmentRecord :=
  { id := "a2", jobId := "job2", title := "T2", summary := "", role := "R",
    difficulty := Difficulty.easy, durationMinutes := 30,
    status := AssessmentStatus.draft, tags := [],
    createdAt := "t0", updatedAt := "t0",
    sections := [
      { id := "s1", assessmentId := "job2", order := 0, title := "S1",
        questions := [
          { id := "q1", sectionId := "s1", order := 0, type := QuestionType.long_text,
            label := "Q1", required := false, validation := {} } ] } ] }

theorem c10_witness :
    removeQuestion c10WitnessAssessment "ghost" = c10WitnessAssessment ∧
    duplicateQuestion c10WitnessAssessment c5WitnessGen "ghost" = c10WitnessAssessment := by
  have h := c10_absent_question_id_frame c10WitnessAssessment c5WitnessGen "ghost"
    {} {} none [] (by decide)
  exact ⟨h.2.2.2.2.1, h.2.2.2.2.2⟩

/-! ## Claim C8: `upsertAssessment` is idempotent up to `updatedAt` -/

theorem mapWithIndex_mapWithIndex (f g : Nat → α → α) :
    ∀ (l : List α) (k : Nat),
      mapWithIndex f k (mapWithIndex g k l)
        = mapWithIndex (fun i x => f i (g i x)) k l := by
  intro l
  induction l with
  | nil => intro k; rfl
  | cons x rest ih => intro k; simp only [mapWithIndex, ih]

theorem mapWithIndex_congr (f g : Nat → α → α) (h : ∀ i x, f i x = g i x) :
    ∀ (l : List α) (k : Nat), mapWithIndex f k l = mapWithIndex g k l := by
  intro l
  induction l with
  | nil => intro k; rfl
  | cons x rest ih => intro k; simp only [mapWithIndex, h, ih]

/-- Claim C8: upserting the same assessment value twice yields a second
persisted record that differs from the first only in `updatedAt` — both when
the second call receives the same input value and when it receives the first
call's normalized output (the renormalization of section/question `order`,
`assessmentId` and `sectionId` is idempotent). -/
theorem c8_upsert_idempotent_up_to_updatedAt (a : AssessmentRecord) (t1 t2 : String) :
    upsertAssessment a t2 = {upsertAssessment a t1 with updatedAt := t2}
    ∧ upsertAssessment (upsertAssessment a t1) t2
      = {upsertAssessment a t1 with updatedAt := t2} := by
  constructor
  · rfl
  · simp only [upsertAssessment, timestamped]
    congr 1
    rw [mapWithIndex_mapWithIndex]
    refine mapWithIndex_congr _ _ (fun i s => ?_) a.sections 0
    congr 1
    rw [mapWithIndex_mapWithIndex]

/-! ## Claim C6: reorder semantics (named-first merge, no loss) -/

theorem map_mapWithIndex_proj (g : Nat → α → α) (proj : α → β)
    (h : ∀ i x, proj (g i x) = proj x) :
    ∀ (l : List α) (k : Nat), (mapWithIndex g k l).map proj = l.map proj := by
  intro l
  induction l with
  | nil => intro k; rfl
  | cons x rest ih => intro k; simp only [mapWithIndex, List.map_cons, h, ih]

/-- Over a list with unique ids, the JS-`Map` lookup (last filtered match)
of an element's own id returns exactly that element. -/
theorem lookup_getLast_of_nodup (getId : α → String) :
    ∀ (l : List α), (l.map getId).Nodup → ∀ x ∈ l,
      (l.filter (fun y => getId y == getId x)).getLast? = some x := by
  intro l
  induction l with
  | nil => intro _ x hx; exact absurd hx (List.not_mem_nil x)
  | cons y rest ih =>
    intro hnd x hx
    rw [List.map_cons, List.nodup_cons] at hnd
    obtain ⟨hy, hrest⟩ := hnd
    rcases List.mem_cons.1 hx with rfl | hx
    · rw [List.filter_cons_of_pos (by simp)]
      have hrest_empty : rest.filter (fun z => getId z == getId x) = [] := by
        rw [List.filter_eq_nil_iff]
        intro z hz hpz
        refine hy ?_
        have hze : getId z = getId x := by simpa using hpz
        rw [← hze]
        exact List.mem_map_of_mem _ hz
      rw [hrest_empty]
      rfl
    · have hne : ¬ ((getId y == getId x) = true) := by
        simp only [beq_iff_eq]
        intro he
        exact hy (he ▸ List.mem_map_of_mem _ hx)
      rw [show List.filter (fun z => getId z == getId x) (y :: rest)
          = List.filter (fun z => getId z == getId x) rest from
        List.filter_cons_of_neg hne]
      exact ih hrest x hx

theorem reorderMerge_map_getId (getId : α → String) (l : List α) :
    ∀ ids : List String,
      ((ids.filterMap (fun i => (l.filter (fun x => getId x == i)).getLast?))).map getId
      = ids.filter (fun i => l.any (fun x => getId x == i)) := by
  intro ids
  induction ids with
  | nil => rfl
  | cons i rest ih =>
    cases hlast : (l.filter (fun x => getId x == i)).getLast? with
    | none =>
      have hany : l.any (fun x => getId x == i) = false := by
        rw [List.any_eq_false]
        intro x hx hpx
        have hmem : x ∈ l.filter (fun y => getId y == i) := List.mem_filter.2 ⟨hx, hpx⟩
        rw [List.getLast?_eq_none_iff.1 hlast] at hmem
        exact List.not_mem_nil x hmem
      simp only [List.filterMap_cons, hlast, List.filter_cons, hany, Bool.false_eq_true,
        if_false]
      exact ih
    | some x =>
      have hx_mem := List.mem_filter.1 (List.mem_of_mem_getLast? hlast)
      have hany : l.any (fun y => getId y == i) = true :=
        List.any_eq_true.2 ⟨x, hx_mem.1, hx_mem.2⟩
      have hid : getId x = i := by simpa using hx_mem.2
      simp only [List.filterMap_cons, hlast, List.filter_cons, hany, if_true,
        List.map_cons, ih, hid]

theorem reorderMerge_subset (getId : α → String) (ids : List String) (l : List α) :
    ∀ x, x ∈ ((ids.filterMap (fun i => (l.filter (fun y => getId y == i)).getLast?))
        ++ l.filter (fun y => !ids.contains (getId y))) → x ∈ l := by
  intro x hx
  rcases List.mem_append.1 hx with h | h
  · obtain ⟨i, _, hlast⟩ := List.mem_filterMap.1 h
    exact (List.mem_filter.1 (List.mem_of_mem_getLast? hlast)).1
  · exact (List.mem_filter.1 h).1

theorem reorderMerge_complete (getId : α → String)
    (ids : List String) (l : List α) (hnd : (l.map getId).Nodup) :
    ∀ x ∈ l, x ∈ ((ids.filterMap (fun i => (l.filter (fun y => getId y == i)).getLast?))
        ++ l.filter (fun y => !ids.contains (getId y))) := by
  intro x hx
  by_cases hc : ids.contains (getId x) = true
  · refine List.mem_append.2 (Or.inl ?_)
    refine List.mem_filterMap.2 ⟨getId x, by simpa using hc, ?_⟩
    exact lookup_getLast_of_nodup getId l hnd x hx
  · refine List.mem_append.2 (Or.inr ?_)
    refine List.mem_filter.2 ⟨hx, ?_⟩
    simp only [Bool.not_eq_true']
    exact Bool.eq_false_iff.2 hc

theorem mem_normalizeSectionOrders {m : List AssessmentSection} {y : AssessmentSection}
    (hy : y ∈ normalizeSectionOrders m) : ∃ x ∈ m, y = {x with order := y.order} := by
  obtain ⟨i, x, hx, rfl⟩ := mem_mapWithIndex hy
  exact ⟨x, hx, rfl⟩

theorem normalizeSectionOrders_mem_of {m : List AssessmentSection} {x : AssessmentSection}
    (hx : x ∈ m) :
    ∃ y ∈ normalizeSectionOrders m, y = {x with order := y.order} := by
  obtain ⟨i, hi⟩ := mapWithIndex_exists_of_mem
    (g := fun index section' => {section' with order := (index : Int)}) (k := 0) hx
  exact ⟨_, hi, rfl⟩

theorem mem_normalizeQuestionOrders {m : List AssessmentQuestion} {y : AssessmentQuestion}
    (hy : y ∈ normalizeQuestionOrders m) : ∃ x ∈ m, y = {x with order := y.order} := by
  obtain ⟨i, x, hx, rfl⟩ := mem_mapWithIndex hy
  exact ⟨x, hx, rfl⟩

theorem normalizeQuestionOrders_mem_of {m : List AssessmentQuestion} {x : AssessmentQuestion}
    (hx : x ∈ m) :
    ∃ y ∈ normalizeQuestionOrders m, y = {x with order := y.order} := by
  obtain ⟨i, hi⟩ := mapWithIndex_exists_of_mem
    (g := fun index question => {question with order := (index : Int)}) (k := 0) hx
  exact ⟨_, hi, rfl⟩

/-- Claim C6: `reorderSections` places the named sections first, in the
given (full or partial) order, then the unnamed sections in their previous
relative order, renormalizes `order` to `0..n-1` and loses nothing;
`reorderQuestions` does the same within the addressed section. -/
theorem c6_reorder_semantics (a : AssessmentRecord) (ids : List String)
    (hnd : (a.sections.map (fun s => s.id)).Nodup) :
    ((reorderSections a ids).sections.map (fun s => s.id)
        = ids.filter (fun i => a.sections.any (fun s => s.id == i))
          ++ (a.sections.filter (fun s => !ids.contains s.id)).map (fun s => s.id))
    ∧ denseFrom (fun s => s.order) 0 (reorderSections a ids).sections = true
    ∧ (∀ s' ∈ (reorderSections a ids).sections, ∃ s ∈ a.sections,
        s' = {s with order := s'.order})
    ∧ (∀ s ∈ a.sections, ∃ s' ∈ (reorderSections a ids).sections,
        s' = {s with order := s'.order})
    ∧ (∀ (sectionId : String) (qids : List String) (s : AssessmentSection),
        s ∈ a.sections → s.id = sectionId →
        (s.questions.map (fun q => q.id)).Nodup →
        ∃ s' ∈ (reorderQuestions a sectionId qids).sections, s'.id = s.id
          ∧ s'.questions.map (fun q => q.id)
              = qids.filter (fun i => s.questions.any (fun q => q.id == i))
                ++ (s.questions.filter (fun q => !qids.contains q.id)).map (fun q => q.id)
          ∧ denseFrom (fun q => q.order) 0 s'.questions = true
          ∧ (∀ q' ∈ s'.questions, ∃ q ∈ s.questions, q' = {q with order := q'.order})
          ∧ (∀ q ∈ s.questions, ∃ q' ∈ s'.questions, q' = {q with order := q'.order})) := by
  refine ⟨?_, ?_, ?_, ?_, ?_⟩
  · show (normalizeSectionOrders _).map _ = _
    unfold normalizeSectionOrders
    rw [map_mapWithIndex_proj
      (fun index section' => ({section' with order := (index : Int)} : AssessmentSection))
      (fun s => s.id) (fun _ _ => rfl)]
    rw [List.map_append]
    congr 1
    exact reorderMerge_map_getId (fun s => s.id) a.sections ids
  · exact denseFrom_normalizeSectionOrders _
  · intro s' hs'
    obtain ⟨x, hx, hx'⟩ := mem_normalizeSectionOrders hs'
    exact ⟨x, reorderMerge_subset (fun s => s.id) ids a.sections x hx, hx'⟩
  · intro s hs
    have hmem := reorderMerge_complete (fun s => s.id) ids a.sections hnd s hs
    obtain ⟨y, hy, hy'⟩ := normalizeSectionOrders_mem_of hmem
    exact ⟨y, hy, hy'⟩
  · intro sectionId qids s hs hsid hqnd
    refine ⟨{s with questions := (normalizeQuestionOrders
        ((qids.filterMap (fun qid => (s.questions.filter (fun q => q.id == qid)).getLast?))
          ++ s.questions.filter (fun q => !qids.contains q.id)))}, ?_, rfl, ?_, ?_, ?_, ?_⟩
    · show _ ∈ a.sections.map _
      refine List.mem_map.2 ⟨s, hs, ?_⟩
      rw [if_neg (by simp [hsid])]
    · show (normalizeQuestionOrders _).map _ = _
      unfold normalizeQuestionOrders
      rw [map_mapWithIndex_proj
        (fun index question => ({question with order := (index : Int)} : AssessmentQuestion))
        (fun q => q.id) (fun _ _ => rfl)]
      rw [List.map_append]
      congr 1
      exact reorderMerge_map_getId (fun q => q.id) s.questions qids
    · exact denseFrom_normalizeQuestionOrders _
    · intro q' hq'
      obtain ⟨x, hx, hx'⟩ := mem_normalizeQuestionOrders hq'
      exact ⟨x, reorderMerge_subset (fun q => q.id) qids s.questions x hx, hx'⟩
    · intro q hq
      have hmem := reorderMerge_complete (fun q => q.id) qids s.questions hqnd q hq
      obtain ⟨y, hy, hy'⟩ := normalizeQuestionOrders_mem_of hmem
      exact ⟨y, hy, hy'⟩

def c6WitnessAssessment : AssessmentRecord :=
  { id := "a3", jobId := "job3", title := "T3", summary := "", role := "R",
    difficulty := Difficulty.medium, durationMinutes := 60,
    status := AssessmentStatus.draft, tags := [],
    createdAt := "t0", updatedAt := "t0",
    sections := [
      { id := "s1", assessmentId := "job3", order := 0, title := "S1", questions := [] },
      { id := "s2", assessmentId := "job3", order := 1, title := "S2", questions := [] },
      { id := "s3", assessmentId := "job3", order := 2, title := "S3", questions := [] } ] }

theorem c6_witness :
    (reorderSections c6WitnessAssessment ["s2", "s1"]).sections.map (fun s => s.id)
      = ["s2", "s1", "s3"] := by
  have h := (c6_reorder_semantics c6WitnessAssessment ["s2", "s1"] (by decide)).1
  rw [h]
  rfl

/-! ## Claim C7: `duplicateQuestion` clones with fresh ids -/

theorem nodup_flatMap_per_elem {g : α → List β} :
    ∀ {l : List α}, (l.flatMap g).Nodup → ∀ s ∈ l, (g s).Nodup := by
  intro l
  induction l with
  | nil => intro _ s hs; exact absurd hs (List.not_mem_nil s)
  | cons x rest ih =>
    intro hnd s hs
    rw [List.flatMap_cons, List.nodup_append] at hnd
    obtain ⟨h1, h2, -⟩ := hnd
    rcases List.mem_cons.1 hs with rfl | hs
    · exact h1
    · exact ih h2 s hs

theorem nodup_flatMap_unique {g : α → List β} :
    ∀ {l : List α}, (l.flatMap g).Nodup → ∀ {s t : α} {b : β},
      s ∈ l → t ∈ l → b ∈ g s → b ∈ g t → s = t := by
  intro l
  induction l with
  | nil => intro _ s t b hs; exact absurd hs (List.not_mem_nil s)
  | cons x rest ih =>
    intro hnd s t b hs ht hbs hbt
    rw [List.flatMap_cons, List.nodup_append] at hnd
    obtain ⟨-, h2, hdisj⟩ := hnd
    rcases List.mem_cons.1 hs with rfl | hs2
    · rcases List.mem_cons.1 ht with rfl | ht2
      · rfl
      · exact absurd (List.mem_flatMap.2 ⟨t, ht2, hbt⟩) (List.disjoint_left.1 hdisj hbs)
    · rcases List.mem_cons.1 ht with rfl | ht2
      · exact absurd (List.mem_flatMap.2 ⟨s, hs2, hbs⟩) (List.disjoint_left.1 hdisj hbt)
      · exact ih h2 hs2 ht2 hbs hbt

/-- With unique ids, `findIndex`-style first lookup of an element's own id
finds exactly that element. -/
theorem find?_eq_of_nodup (getId : α → String) :
    ∀ (l : List α), (l.map getId).Nodup → ∀ x ∈ l,
      l.find? (fun y => getId y == getId x) = some x := by
  intro l
  induction l with
  | nil => intro _ x hx; exact absurd hx (List.not_mem_nil x)
  | cons y rest ih =>
    intro hnd x hx
    rw [List.map_cons, List.nodup_cons] at hnd
    obtain ⟨hy, hrest⟩ := hnd
    rcases List.mem_cons.1 hx with rfl | hx
    · exact List.find?_cons_of_pos _ (by simp)
    · have hne : ¬ ((getId y == getId x) = true) := by
        simp only [beq_iff_eq]
        intro he
        exact hy (he ▸ List.mem_map_of_mem _ hx)
      rw [show List.find? (fun z => getId z == getId x) (y :: rest)
          = List.find? (fun z => getId z == getId x) rest from
        List.find?_cons_of_neg _ hne]
      exact ih hrest x hx

/-- Claim C7: `duplicateQuestion` appends to the containing section a clone
whose id is freshly generated (different from every existing question id),
whose `order` is the section's previous question count, whose choices keep
labels and values in order under fresh choice ids, and whose other fields
equal the original's; every other section and all pre-existing questions
are untouched. -/
theorem c7_duplicateQuestion_spec
    (a : AssessmentRecord) (gen : Nat → String) (questionId : String)
    (sec : AssessmentSection) (q : AssessmentQuestion)
    (hnd : (a.sections.flatMap (fun s => s.questions.map (fun q' => q'.id))).Nodup)
    (hsec : sec ∈ a.sections) (hq : q ∈ sec.questions) (hqid : q.id = questionId)
    (hfreshQ : ∀ n, ∀ s ∈ a.sections, ∀ q' ∈ s.questions, q'.id ≠ gen n)
    (hfreshC : ∀ n, ∀ s ∈ a.sections, ∀ q' ∈ s.questions, ∀ cs,
      q'.choices = some cs → ∀ c ∈ cs, c.id ≠ gen n) :
    ∃ cloned : AssessmentQuestion,
      ((duplicateQuestion a gen questionId).sections
          = a.sections.map (fun s =>
              if s.questions.any (fun q' => q'.id == questionId) then
                {s with questions := s.questions ++ [cloned]}
              else s))
      ∧ cloned.id = gen 0
      ∧ (∀ s ∈ a.sections, ∀ q' ∈ s.questions, q'.id ≠ cloned.id)
      ∧ cloned.order = (sec.questions.length : Int)
      ∧ cloned.sectionId = q.sectionId
      ∧ cloned.type = q.type
      ∧ cloned.label = q.label
      ∧ cloned.description = q.description
      ∧ cloned.helperText = q.helperText
      ∧ cloned.required = q.required
      ∧ cloned.validation = q.validation
      ∧ cloned.conditionalLogic = q.conditionalLogic
      ∧ (match q.choices, cloned.choices with
         | none, none => True
         | some cs, some cs' =>
             cs'.map (fun c => (c.label, c.value)) = cs.map (fun c => (c.label, c.value))
             ∧ ∀ c' ∈ cs', ∀ c ∈ cs, c.id ≠ c'.id
         | _, _ => False) := by
  subst hqid
  refine ⟨{q with
      id := gen 0
      order := (sec.questions.length : Int)
      choices := q.choices.map (fun cs =>
        mapWithIndex (fun j choice => {choice with id := gen (j + 1)}) 0 cs)},
    ?_, rfl, ?_, rfl, rfl, rfl, rfl, rfl, rfl, rfl, rfl, rfl, ?_⟩
  · show a.sections.map _ = a.sections.map _
    refine List.map_congr_left (fun s hs => ?_)
    cases hfind : s.questions.find? (fun q' => q'.id == q.id) with
    | none =>
      have hany : s.questions.any (fun q' => q'.id == q.id) = false := by
        rw [List.any_eq_false]
        exact List.find?_eq_none.1 hfind
      dsimp only
      simp only [hany, Bool.false_eq_true, if_false]
    | some q2 =>
      have hq2mem := List.mem_of_find?_eq_some hfind
      have hq2id : q2.id = q.id := by simpa using List.find?_some hfind
      have hseq : s = sec := by
        refine nodup_flatMap_unique (b := q.id) hnd hs hsec ?_ ?_
        · rw [← hq2id]
          exact List.mem_map_of_mem _ hq2mem
        · exact List.mem_map_of_mem _ hq
      subst hseq
      have hqnodup : (s.questions.map (fun q' => q'.id)).Nodup :=
        nodup_flatMap_per_elem hnd s hs
      have hfind2 := find?_eq_of_nodup (fun q' => q'.id) s.questions hqnodup q hq
      rw [hfind] at hfind2
      have hqq : q = q2 := (Option.some.inj hfind2).symm
      subst hqq
      have hany : s.questions.any (fun q' => q'.id == q.id) = true :=
        List.any_eq_true.2 ⟨q, hq, by simp⟩
      dsimp only
      rw [hany]
      rfl
  · exact fun s hs q' hq' => hfreshQ 0 s hs q' hq'
  · cases hch : q.choices with
    | none => simp
    | some cs =>
      simp only [Option.map_some]
      refine ⟨?_, ?_⟩
      · exact map_mapWithIndex_proj
          (fun j choice => ({choice with id := gen (j + 1)} : QuestionChoice))
          (fun c => (c.label, c.value)) (fun _ _ => rfl) cs 0
      · intro c' hc' c hc
        obtain ⟨j, c0, _, rfl⟩ := mem_mapWithIndex hc'
        exact hfreshC (j + 1) sec hsec q hq cs hch c hc

def c7WitnessAssessment : AssessmentRecord :=
  { id := "a4", jobId := "job4", title := "T4", summary := "", role := "R",
    difficulty := Difficulty.medium, durationMinutes := 45,
    status := AssessmentStatus.draft, tags := [],
    createdAt := "t0", updatedAt := "t0",
    sections := [
      { id := "s1", assessmentId := "job4", order := 0, title := "S1",
        questions := [
          { id := "q1", sectionId := "s1", order := 0, type := QuestionType.multi_choice,
            label := "Pick", required := true, validation := {},
            choices := some [⟨"c1", "A", "a"⟩, ⟨"c2", "B", "b"⟩, ⟨"c3", "C", "c"⟩] } ] } ] }

theorem c7_witness :
    (duplicateQuestion c7WitnessAssessment (fun _ => "fresh") "q1").sections.map
      (fun s => s.questions.length) = [2] := by
  obtain ⟨cloned, h1, -⟩ := c7_duplicateQuestion_spec c7WitnessAssessment
    (fun _ => "fresh") "q1"
    (c7WitnessAssessment.sections.head (by simp [c7WitnessAssessment]))
    { id := "q1", sectionId := "s1", order := 0, type := QuestionType.multi_choice,
      label := "Pick", required := true, validation := {},
      choices := some [⟨"c1", "A", "a"⟩, ⟨"c2", "B", "b"⟩, ⟨"c3", "C", "c"⟩] }
    (by decide) (by decide) (by decide) rfl
    (by
      intro n
      exact (by decide : ∀ s ∈ c7WitnessAssessment.sections,
        ∀ q' ∈ s.questions, q'.id ≠ "fresh"))
    (by
      intro n
      exact (by decide : ∀ s ∈ c7WitnessAssessment.sections, ∀ q' ∈ s.questions,
        ∀ cs, q'.choices = some cs → ∀ c ∈ cs, c.id ≠ "fresh"))
  rw [h1]
  rfl

end TalentFlow
